import Mathlib

/-!
# Physics-Sandbox: the simulation-and-readback pipeline of `src/main.js`

A shallow embedding of the script: the size constants, the three device
buffers and their binding, the seeding loop, the per-frame sequence of
`renderLoop` and the reads of `draw`.

Conventions of the embedding.

* The particle count `N` is a constant of the script (`const N = 2`); every
  definition takes it as a parameter.
* JavaScript numbers are binary64 values and the elements of a `Float32Array`
  are binary32 values.  A finite value is represented by the rational it
  denotes, and the two roundings (round to nearest, ties to even) are the
  functions `toDouble` and `fround` below.
* Device buffers are addressed in bytes by the script; their contents are kept
  as lists of 4-byte words (one word is one `Float32Array` element), which is
  the granularity WebGPU imposes on copies and mappings.
* What the platform decides (the results of `Math.random()`, whether a
  `mapAsync` promise fulfils, when `device.lost` resolves, the compute kernel
  of `shaders/compute.wgsl`) is a parameter.
-/

namespace PhysicsSandbox

/-! ## Numbers -/

/-- Round a rational to the nearest integer, ties to the even one. -/
def roundHalfEven (q : ℚ) : ℤ :=
  if q - ⌊q⌋ < 1 / 2 then ⌊q⌋
  else if 1 / 2 < q - ⌊q⌋ then ⌊q⌋ + 1
  else if ⌊q⌋ % 2 = 0 then ⌊q⌋ else ⌊q⌋ + 1

/-- Exponent of the unit in the last place of `x` in a binary format with
`prec` significand bits whose smallest subnormal is `2 ^ emin`. -/
def ulpExp (prec emin : ℤ) (x : ℚ) : ℤ :=
  max (Int.log 2 |x| + 1 - prec) emin

/-- Round to nearest, ties to even, in the binary format `(prec, emin)`.
Overflow to infinity is not represented: every value rounded by the script
is below `2 ^ 33`. -/
def roundFloat (prec emin : ℤ) (x : ℚ) : ℚ :=
  (roundHalfEven (x / (2 : ℚ) ^ ulpExp prec emin x) : ℚ) * (2 : ℚ) ^ ulpExp prec emin x

/-- The result of a JavaScript arithmetic operation: binary64 rounding. -/
def toDouble (x : ℚ) : ℚ := roundFloat 53 (-1074) x

/-- The value kept by a store into a `Float32Array`: binary32 rounding. -/
def fround (x : ℚ) : ℚ := roundFloat 24 (-149) x

/-- The JavaScript `Math.ceil` on a finite value. -/
def mathCeil (x : ℚ) : ℤ := ⌈x⌉

/-! ## Constants (`main.js` lines 5-7) -/

/-- `const BODY_SIZE = 32;` -/
def BODY_SIZE : ℕ := 32

/-- `const BUFFER_SIZE = N * BODY_SIZE;` -/
def BUFFER_SIZE (N : ℕ) : ℕ := N * BODY_SIZE

/-- `Float32Array.BYTES_PER_ELEMENT`. -/
def BYTES_PER_ELEMENT : ℕ := 4

/-- Modelled from the spec: the work-group size declared by
`shaders/compute.wgsl`, which is not part of the sources; the spec gives
"64 work-items per group". -/
def WORKGROUP_SIZE : ℕ := 64

/-- The argument of `computePass.dispatchWorkgroups(Math.ceil(N / 64))`:
a binary64 division followed by `Math.ceil`. -/
def workgroupCount (N : ℕ) : ℤ := mathCeil (toDouble ((N : ℚ) / 64))


/-! ## Device objects (`main.js` lines 45-100) -/

/-- The flags of `GPUBufferUsage`. -/
inductive GPUBufferUsage
  | MAP_READ | MAP_WRITE | COPY_SRC | COPY_DST | INDEX | VERTEX | UNIFORM | STORAGE
  | INDIRECT | QUERY_RESOLVE
  deriving DecidableEq, Repr

/-- The three buffers the script creates. -/
inductive BufferName
  | inputBuffer | outputBuffer | stagingBuffer
  deriving DecidableEq, Repr

/-- The descriptor given to `device.createBuffer`. -/
structure GPUBufferDescriptor where
  size : ℕ
  usage : List GPUBufferUsage
  deriving DecidableEq, Repr

/-- The descriptors of lines 73-86. -/
def bufferDescriptor (N : ℕ) : BufferName → GPUBufferDescriptor
  | .inputBuffer => { size := BUFFER_SIZE N, usage := [.STORAGE, .COPY_DST] }
  | .outputBuffer => { size := BUFFER_SIZE N, usage := [.STORAGE, .COPY_SRC] }
  | .stagingBuffer => { size := BUFFER_SIZE N, usage := [.MAP_READ, .COPY_DST] }

/-- The kinds of buffer binding of a bind group layout. -/
inductive GPUBufferBindingType
  | uniform | storage | readOnlyStorage
  deriving DecidableEq, Repr

/-- The flags of `GPUShaderStage`. -/
inductive GPUShaderStage
  | VERTEX | FRAGMENT | COMPUTE
  deriving DecidableEq, Repr

/-- One entry of `createBindGroupLayout`. -/
structure GPUBindGroupLayoutEntry where
  binding : ℕ
  visibility : List GPUShaderStage
  type : GPUBufferBindingType
  deriving DecidableEq, Repr

/-- The layout of lines 45-58. -/
def bindGroupLayout : List GPUBindGroupLayoutEntry :=
  [ { binding := 0, visibility := [.COMPUTE], type := .readOnlyStorage },
    { binding := 1, visibility := [.COMPUTE], type := .storage } ]

/-- One entry of `createBindGroup`. -/
structure GPUBindGroupEntry where
  binding : ℕ
  buffer : BufferName
  deriving DecidableEq, Repr

/-- The bind group of lines 89-100. -/
def bindGroup : List GPUBindGroupEntry :=
  [ { binding := 0, buffer := .inputBuffer },
    { binding := 1, buffer := .outputBuffer } ]

/-! ## The operations the script issues -/

/-- A command recorded into the command encoder of `renderLoop`. -/
inductive Command
  /-- A compute pass with `computePipeline`, `bindGroup` at index 0 and one
  `dispatchWorkgroups(workgroupCountX)`. -/
  | dispatchWorkgroups (workgroupCountX : ℤ)
  /-- A `copyBufferToBuffer(source, sourceOffset, destination, destinationOffset, size)`. -/
  | copyBufferToBuffer (source : BufferName) (sourceOffset : ℕ)
      (destination : BufferName) (destinationOffset size : ℕ)
  deriving DecidableEq, Repr

/-- A call the script makes, or a reaction the platform runs. -/
inductive Op (α : Type)
  /-- The call `device.queue.writeBuffer(buffer, bufferOffset, data)`. -/
  | writeBuffer (buffer : BufferName) (bufferOffset : ℕ) (data : List α)
  /-- The call `device.queue.submit([commandEncoder.finish()])`. -/
  | submit (commands : List Command)
  /-- The call `buffer.mapAsync(GPUMapMode.READ, offset, size)`. -/
  | mapAsync (buffer : BufferName) (offset size : ℕ)
  /-- The promise of the pending `mapAsync` settles; the `await` resumes. -/
  | mapSettled (buffer : BufferName) (fulfilled : Bool)
  /-- The statement `const copyArrayBuffer = buffer.getMappedRange(offset, size)`. -/
  | getMappedRange (buffer : BufferName) (offset size : ℕ)
  /-- The statement `const data = new Float32Array(copyArrayBuffer.slice())`, where
  `copyArrayBuffer` is the mapped range of `source`. -/
  | newFloat32Array (source : BufferName)
  /-- The call `buffer.unmap()`. -/
  | unmap (buffer : BufferName)
  /-- The call `draw(data)`. -/
  | draw
  /-- The call `requestAnimationFrame(renderLoop)`. -/
  | requestAnimationFrame
  /-- The reaction registered by `device.lost.then` runs and throws. -/
  | deviceLostReaction
  deriving DecidableEq, Repr

/-- What the platform decides for one run of `renderLoop`. -/
structure FrameEnv where
  /-- The promise `device.lost` resolved and its reaction runs before this run
  of `renderLoop` starts. -/
  lostBefore : Bool
  /-- The promise of this run's `mapAsync` fulfils (otherwise it rejects). -/
  mapFulfilled : Bool
  deriving DecidableEq, Repr

/-- The commands recorded by one run of `renderLoop` (lines 120-131). -/
def recordedCommands (N : ℕ) : List Command :=
  [ .dispatchWorkgroups (workgroupCount N),
    .copyBufferToBuffer .outputBuffer 0 .stagingBuffer 0 (BUFFER_SIZE N),
    .copyBufferToBuffer .outputBuffer 0 .inputBuffer 0 (BUFFER_SIZE N) ]

/-- One run of `renderLoop` (lines 119-146).  A rejected `await` throws, which
ends the run before the decode, the `draw` and the `requestAnimationFrame`. -/
def renderLoop {α : Type} (N : ℕ) (mapFulfilled : Bool) : List (Op α) :=
  [ .submit (recordedCommands N),
    .mapAsync .stagingBuffer 0 (BUFFER_SIZE N),
    .mapSettled .stagingBuffer mapFulfilled ] ++
  if mapFulfilled then
    [ .getMappedRange .stagingBuffer 0 (BUFFER_SIZE N),
      .newFloat32Array .stagingBuffer,
      .unmap .stagingBuffer,
      .draw,
      .requestAnimationFrame ]
  else []

/-- The frame loop: `renderLoop()` at line 147 and every run scheduled by the
`requestAnimationFrame` of the run before it, for as many runs as `envs`
describes.  A run that did not reach `requestAnimationFrame` is the last. -/
def frameLoop {α : Type} (N : ℕ) : List FrameEnv → List (Op α)
  | [] => []
  | e :: envs =>
    (if e.lostBefore then [.deviceLostReaction] else []) ++ renderLoop N e.mapFulfilled ++
      (if e.mapFulfilled then frameLoop N envs else [])

/-- The script from line 116 on: the seed is written, then the frame loop runs. -/
def script {α : Type} (N : ℕ) (inputData : List α) (envs : List FrameEnv) : List (Op α) :=
  .writeBuffer .inputBuffer 0 inputData :: frameLoop N envs

/-- A run of `renderLoop` whose mapping fulfils on a device that is not lost. -/
def okFrame : FrameEnv := { lostBefore := false, mapFulfilled := true }

/-! ## Validation of the operations

The rules WebGPU applies to the calls above: usage flags, alignment and
bounds against the descriptor the buffer was created with. -/

/-- Validation of a recorded command. -/
def commandPermitted (N : ℕ) : Command → Bool
  | .dispatchWorkgroups workgroupCountX =>
    decide (0 ≤ workgroupCountX) &&
    bindGroup.all fun e =>
      bindGroupLayout.any (fun l => decide (l.binding = e.binding)) &&
      decide (GPUBufferUsage.STORAGE ∈ (bufferDescriptor N e.buffer).usage) &&
      decide (0 < (bufferDescriptor N e.buffer).size)
  | .copyBufferToBuffer source sourceOffset destination destinationOffset size =>
    decide (GPUBufferUsage.COPY_SRC ∈ (bufferDescriptor N source).usage) &&
    decide (GPUBufferUsage.COPY_DST ∈ (bufferDescriptor N destination).usage) &&
    decide (source ≠ destination) &&
    decide (size % 4 = 0) && decide (sourceOffset % 4 = 0) &&
    decide (destinationOffset % 4 = 0) &&
    decide (sourceOffset + size ≤ (bufferDescriptor N source).size) &&
    decide (destinationOffset + size ≤ (bufferDescriptor N destination).size)

/-- Validation of a call against the descriptors. -/
def permitted {α : Type} (N : ℕ) : Op α → Bool
  | .writeBuffer buffer bufferOffset data =>
    decide (GPUBufferUsage.COPY_DST ∈ (bufferDescriptor N buffer).usage) &&
    decide (bufferOffset % 4 = 0) &&
    decide (bufferOffset + BYTES_PER_ELEMENT * data.length ≤ (bufferDescriptor N buffer).size)
  | .submit commands => commands.all (commandPermitted N)
  | .mapAsync buffer offset size =>
    decide (GPUBufferUsage.MAP_READ ∈ (bufferDescriptor N buffer).usage) &&
    decide (offset % 8 = 0) && decide (size % 4 = 0) &&
    decide (offset + size ≤ (bufferDescriptor N buffer).size)
  | .getMappedRange _ offset size => decide (offset % 8 = 0) && decide (size % 4 = 0)
  | _ => true

/-- The buffers a recorded command uses. -/
def commandBuffers : Command → List BufferName
  | .dispatchWorkgroups _ => bindGroup.map (·.buffer)
  | .copyBufferToBuffer source _ destination _ _ => [source, destination]

/-- The mapping state of a buffer; a pending or active mapping has a byte range. -/
inductive MapState
  | unmapped
  | pending (offset size : ℕ)
  | mapped (offset size : ℕ)
  deriving DecidableEq, Repr

/-- The mapping state machine of buffer `b`: the state after a call, or `none`
when the call is not allowed in the state.  A buffer can be asked to map only
while unmapped; its range can be taken, and read, only while mapped and inside
the mapped range; the queue can use it only while unmapped. -/
def mapStep {α : Type} (b : BufferName) (m : MapState) : Op α → Option MapState
  | .writeBuffer buffer _ _ =>
    if buffer = b then (if m = .unmapped then some m else none) else some m
  | .submit commands =>
    if commands.any (fun c => decide (b ∈ commandBuffers c)) then
      (if m = .unmapped then some m else none)
    else some m
  | .mapAsync buffer offset size =>
    if buffer = b then (if m = .unmapped then some (.pending offset size) else none) else some m
  | .mapSettled buffer fulfilled =>
    if buffer = b then
      match m with
      | .pending offset size => some (if fulfilled then .mapped offset size else .unmapped)
      | _ => none
    else some m
  | .getMappedRange buffer offset size =>
    if buffer = b then
      match m with
      | .mapped o s => if o ≤ offset ∧ offset + size ≤ o + s then some m else none
      | _ => none
    else some m
  | .newFloat32Array source =>
    if source = b then
      match m with
      | .mapped _ _ => some m
      | _ => none
    else some m
  | .unmap buffer => if buffer = b then some .unmapped else some m
  | _ => some m

/-- Run the mapping state machine of buffer `b` over a sequence of calls. -/
def mapRun {α : Type} (b : BufferName) : MapState → List (Op α) → Option MapState
  | m, [] => some m
  | m, op :: ops => (mapStep b m op).bind fun m1 => mapRun b m1 ops

/-! ## Effects of the operations on a live device -/

/-- Overwrite the words of `dst` from word `wordOffset` on with `src`. -/
def writeWords {α : Type} (dst : List α) (wordOffset : ℕ) (src : List α) : List α :=
  dst.take wordOffset ++ src ++ dst.drop (wordOffset + src.length)

/-- The compute kernel of `shaders/compute.wgsl` (not part of the sources) is a
parameter: from the work-group count and the contents visible at each binding
number it gives the contents it leaves at each binding number. -/
abbrev Kernel (α : Type) := ℤ → (ℕ → List α) → ℕ → List α

/-- The contents a dispatch sees at a binding number. -/
def bindingView {α : Type} (contents : BufferName → List α) (binding : ℕ) : List α :=
  match bindGroup.find? (fun e => decide (e.binding = binding)) with
  | some e => contents e.buffer
  | none => []

/-- A binding the layout lets the kernel write: its type is `storage`. -/
def writableBinding (binding : ℕ) : Bool :=
  bindGroupLayout.any fun l => decide (l.binding = binding) && decide (l.type = .storage)

/-- A dispatch: the kernel result is stored at the writable bindings only. -/
def dispatch {α : Type} (kernel : Kernel α) (workgroupCountX : ℤ)
    (contents : BufferName → List α) : BufferName → List α :=
  bindGroup.foldl
    (fun c e =>
      if writableBinding e.binding then
        Function.update c e.buffer (kernel workgroupCountX (bindingView contents) e.binding)
      else c)
    contents

/-- The effect of a recorded command on the buffer contents. -/
def execCommand {α : Type} (kernel : Kernel α) (contents : BufferName → List α) :
    Command → BufferName → List α
  | .dispatchWorkgroups workgroupCountX => dispatch kernel workgroupCountX contents
  | .copyBufferToBuffer source sourceOffset destination destinationOffset size =>
    Function.update contents destination
      (writeWords (contents destination) (destinationOffset / 4)
        (((contents source).drop (sourceOffset / 4)).take (size / 4)))

/-- The device buffers and the variables of the script. -/
structure State (α : Type) where
  /-- The words each buffer holds. -/
  contents : BufferName → List α
  /-- The mapping state of each buffer. -/
  mapState : BufferName → MapState
  /-- The variable `copyArrayBuffer`; `none` once it is detached by `unmap`. -/
  copyArrayBuffer : Option (List α)
  /-- The variable `data` of `renderLoop`. -/
  data : Option (List α)
  /-- The arguments of the calls of `draw`, oldest first. -/
  drawn : List (List α)
  /-- The number of calls of `requestAnimationFrame`. -/
  animationFrames : ℕ
  /-- The errors thrown by reactions, oldest first. -/
  thrown : List String

/-- The state when line 116 is reached: buffers are created zero-filled and
unmapped. -/
def initialState {α : Type} [Zero α] (N : ℕ) : State α :=
  { contents := fun b => List.replicate ((bufferDescriptor N b).size / BYTES_PER_ELEMENT) 0
    mapState := fun _ => .unmapped
    copyArrayBuffer := none
    data := none
    drawn := []
    animationFrames := 0
    thrown := [] }

/-- The mapping states after a call, when every buffer allows it. -/
def mapStates {α : Type} (m : BufferName → MapState) (op : Op α) :
    Option (BufferName → MapState) :=
  match mapStep .inputBuffer (m .inputBuffer) op, mapStep .outputBuffer (m .outputBuffer) op,
    mapStep .stagingBuffer (m .stagingBuffer) op with
  | some mi, some mo, some ms =>
    some fun b =>
      match b with
      | .inputBuffer => mi
      | .outputBuffer => mo
      | .stagingBuffer => ms
  | _, _, _ => none

/-- The effect of a call that passed validation. -/
def effect {α : Type} (kernel : Kernel α) (s : State α) : Op α → Option (State α)
  | .writeBuffer buffer bufferOffset data =>
    some { s with
      contents := Function.update s.contents buffer
        (writeWords (s.contents buffer) (bufferOffset / 4) data) }
  | .submit commands => some { s with contents := commands.foldl (execCommand kernel) s.contents }
  | .mapAsync _ _ _ => some s
  | .mapSettled _ _ => some s
  | .getMappedRange buffer offset size =>
    some { s with
      copyArrayBuffer := some (((s.contents buffer).drop (offset / 4)).take (size / 4)) }
  | .newFloat32Array _ => s.copyArrayBuffer.map fun bytes => { s with data := some bytes }
  | .unmap _ => some { s with copyArrayBuffer := none }
  | .draw => s.data.map fun d => { s with drawn := s.drawn ++ [d] }
  | .requestAnimationFrame => some { s with animationFrames := s.animationFrames + 1 }
  | .deviceLostReaction =>
    some { s with thrown := s.thrown ++ ["WebGPU logical device was lost"] }

/-- One call on a live device: `none` when validation or the mapping state
machine refuses it. -/
def exec {α : Type} (N : ℕ) (kernel : Kernel α) (s : State α) (op : Op α) : Option (State α) :=
  if permitted N op then
    (mapStates s.mapState op).bind fun m => effect kernel { s with mapState := m } op
  else none

/-- A sequence of calls on a live device. -/
def run {α : Type} (N : ℕ) (kernel : Kernel α) : State α → List (Op α) → Option (State α)
  | s, [] => some s
  | s, op :: ops => (exec N kernel s op).bind fun s1 => run N kernel s1 ops

/-- The kernel that reads binding 0 and leaves `f` of it at binding 1. -/
def kernelOf {α : Type} (f : List α → List α) : Kernel α :=
  fun _ view binding => if binding = 1 then f (view 0) else view binding

/-! ## Seeding (lines 102-115) and drawing (lines 149-167) -/

/-- An element store `a[i] = v` into a `Float32Array`: the value is rounded to
binary32; a store outside the array does nothing. -/
def store (a : List ℚ) (i : ℕ) (v : ℚ) : List ℚ := a.set i (fround v)

/-- The body of the seeding loop for index `i`.  `random k` is the result of
the `k`-th call of `Math.random()`; the body makes three calls. -/
def seedBody (canvasWidth canvasHeight : ℕ) (random : ℕ → ℚ) (inputData : List ℚ) (i : ℕ) :
    List ℚ :=
  let offset := i * 8
  let a0 := store inputData (offset + 0) (toDouble ((canvasWidth : ℚ) * random (3 * i)))
  let a1 := store a0 (offset + 1) (toDouble ((canvasHeight : ℚ) * random (3 * i + 1)))
  let a2 := store a1 (offset + 2) 0
  let a3 := store a2 (offset + 3) 0
  let a4 := store a3 (offset + 4) (toDouble (1 + random (3 * i + 2)))
  let a5 := store a4 (offset + 5) 0
  let a6 := store a5 (offset + 6) 0
  store a6 (offset + 7) 0

/-- The array `inputData` after the seeding loop. -/
def inputData (canvasWidth canvasHeight : ℕ) (random : ℕ → ℚ) (N : ℕ) : List ℚ :=
  (List.range N).foldl (seedBody canvasWidth canvasHeight random) (List.replicate (N * 8) 0)

/-- The elements `draw` reads for particle `i`: `data[offset + 0]`,
`data[offset + 1]` and `data[offset + 4]`; `none` is `undefined`. -/
def drawReads {α : Type} (data : List α) (i : ℕ) : Option α × Option α × Option α :=
  let offset := i * 8
  (data[offset + 0]?, data[offset + 1]?, data[offset + 4]?)

/-- The loop of `draw`: the reads it makes, particle by particle.  The canvas
calls are outside the model. -/
def draw {α : Type} (N : ℕ) (data : List α) : List (Option α × Option α × Option α) :=
  (List.range N).map (drawReads data)

/-! ## The buffers an operation can write -/

/-- The buffers a recorded command can write: for a dispatch the buffers bound
at a writable binding, for a copy its destination. -/
def commandWrites : Command → List BufferName
  | .dispatchWorkgroups _ =>
    (bindGroup.filter fun e => writableBinding e.binding).map fun e => e.buffer
  | .copyBufferToBuffer _ _ destination _ _ => [destination]

/-- The buffers a call can write. -/
def opWrites {α : Type} : Op α → List BufferName
  | .writeBuffer buffer _ _ => [buffer]
  | .submit commands => (commands.map commandWrites).flatten
  | _ => []


/-! ## Facts about the roundings -/

theorem floor_le_roundHalfEven (q : ℚ) : ⌊q⌋ ≤ roundHalfEven q := by
  unfold roundHalfEven
  split_ifs <;> omega

theorem roundHalfEven_le_ceil (q : ℚ) : roundHalfEven q ≤ ⌈q⌉ := by
  have hfc : ⌊q⌋ ≤ ⌈q⌉ := Int.floor_le_ceil q
  have key : 0 < q - ⌊q⌋ → ⌊q⌋ + 1 ≤ ⌈q⌉ := by
    intro h
    have h1 : (⌊q⌋ : ℚ) < q := by linarith
    have h2 : ⌊q⌋ < ⌈q⌉ := Int.lt_ceil.mpr h1
    omega
  unfold roundHalfEven
  split_ifs with h1 h2 h3
  · exact hfc
  · exact key (by linarith)
  · exact hfc
  · exact key (by linarith)

/-- An integer strictly within one half of `q` is the rounding of `q`. -/
theorem roundHalfEven_eq_of_abs_lt (q : ℚ) (n : ℤ) (h : |q - n| < 1 / 2) :
    roundHalfEven q = n := by
  rw [abs_lt] at h
  obtain ⟨hl, hr⟩ := h
  have hfl : (⌊q⌋ : ℚ) ≤ q := Int.floor_le q
  have hfr : q < ⌊q⌋ + 1 := Int.lt_floor_add_one q
  have h1 : n - 2 < ⌊q⌋ := by
    have ha : ((n - 2 : ℤ) : ℚ) < ((⌊q⌋ : ℤ) : ℚ) := by push_cast; linarith
    exact Int.cast_lt.mp ha
  have h2 : ⌊q⌋ < n + 1 := by
    have : ((⌊q⌋ : ℤ) : ℚ) < ((n + 1 : ℤ) : ℚ) := by push_cast; linarith
    exact Int.cast_lt.mp this
  have hcases : ⌊q⌋ = n ∨ ⌊q⌋ = n - 1 := by omega
  unfold roundHalfEven
  rcases hcases with h0 | h0
  · have : q - ⌊q⌋ < 1 / 2 := by rw [h0]; linarith
    rw [if_pos this, h0]
  · have hc : (⌊q⌋ : ℚ) = n - 1 := by rw [h0]; push_cast; ring
    have : ¬ (q - ⌊q⌋ < 1 / 2) := by rw [hc]; intro h; linarith
    rw [if_neg this]
    have : 1 / 2 < q - ⌊q⌋ := by rw [hc]; linarith
    rw [if_pos this, h0]
    ring

theorem two_zpow_pos (c : ℤ) : (0 : ℚ) < (2 : ℚ) ^ c := zpow_pos (by norm_num) c

/-- A multiple of the unit in the last place of `x` that is above `x` is above
its rounding. -/
theorem roundFloat_le (prec emin : ℤ) (x b : ℚ) (m : ℤ)
    (hb : b = (m : ℚ) * (2 : ℚ) ^ ulpExp prec emin x) (hx : x ≤ b) :
    roundFloat prec emin x ≤ b := by
  have hp := two_zpow_pos (ulpExp prec emin x)
  have h1 : x / (2 : ℚ) ^ ulpExp prec emin x ≤ (m : ℚ) := by
    rw [div_le_iff₀ hp, ← hb]; exact hx
  have h2 : roundHalfEven (x / (2 : ℚ) ^ ulpExp prec emin x) ≤ m :=
    le_trans (roundHalfEven_le_ceil _) (Int.ceil_le.mpr h1)
  have h3 : (roundHalfEven (x / (2 : ℚ) ^ ulpExp prec emin x) : ℚ) ≤ (m : ℚ) := by
    exact_mod_cast h2
  unfold roundFloat
  rw [hb]
  exact mul_le_mul_of_nonneg_right h3 hp.le

/-- A multiple of the unit in the last place of `x` that is below `x` is below
its rounding. -/
theorem le_roundFloat (prec emin : ℤ) (x a : ℚ) (m : ℤ)
    (ha : a = (m : ℚ) * (2 : ℚ) ^ ulpExp prec emin x) (hx : a ≤ x) :
    a ≤ roundFloat prec emin x := by
  have hp := two_zpow_pos (ulpExp prec emin x)
  have h1 : (m : ℚ) ≤ x / (2 : ℚ) ^ ulpExp prec emin x := by
    rw [le_div_iff₀ hp, ← ha]; exact hx
  have h2 : m ≤ roundHalfEven (x / (2 : ℚ) ^ ulpExp prec emin x) :=
    le_trans (Int.le_floor.mpr h1) (floor_le_roundHalfEven _)
  have h3 : (m : ℚ) ≤ (roundHalfEven (x / (2 : ℚ) ^ ulpExp prec emin x) : ℚ) := by
    exact_mod_cast h2
  unfold roundFloat
  rw [ha]
  exact mul_le_mul_of_nonneg_right h3 hp.le

/-- A value that is a multiple of its own unit in the last place is kept. -/
theorem roundFloat_eq_self (prec emin : ℤ) (x : ℚ) (m : ℤ)
    (hx : x = (m : ℚ) * (2 : ℚ) ^ ulpExp prec emin x) : roundFloat prec emin x = x :=
  le_antisymm (roundFloat_le prec emin x x m hx le_rfl) (le_roundFloat prec emin x x m hx le_rfl)

/-- Below `2 ^ k` the unit in the last place is at most `2 ^ (k - prec)`. -/
theorem ulpExp_le (prec emin k : ℤ) (x : ℚ) (hk : emin ≤ k - prec) (h0 : 1 ≤ k)
    (hx : |x| < (2 : ℚ) ^ k) : ulpExp prec emin x ≤ k - prec := by
  unfold ulpExp
  apply max_le _ hk
  rcases eq_or_lt_of_le (abs_nonneg x) with h | h
  · rw [← h, Int.log_zero_right]; omega
  · have := (Int.lt_zpow_iff_log_lt (b := 2) (by norm_num) h).mp (by exact_mod_cast hx)
    omega

/-- The unit in the last place of a value in `[2 ^ e, 2 ^ (e + 1))`. -/
theorem ulpExp_eq (prec emin e : ℤ) (x : ℚ) (hc : emin ≤ e + 1 - prec)
    (hl : (2 : ℚ) ^ e ≤ |x|) (hr : |x| < (2 : ℚ) ^ (e + 1)) :
    ulpExp prec emin x = e + 1 - prec := by
  have hpos : 0 < |x| := lt_of_lt_of_le (two_zpow_pos e) hl
  have h1 := (Int.zpow_le_iff_le_log (b := 2) (by norm_num) hpos).mp (by exact_mod_cast hl)
  have h2 := (Int.lt_zpow_iff_log_lt (b := 2) (by norm_num) hpos).mp (by exact_mod_cast hr)
  unfold ulpExp
  rw [max_eq_left (by omega)]
  omega

/-- The rounding of a value in `[2 ^ e, 2 ^ (e + 1))` whose quotient by the unit
in the last place is strictly within one half of the integer `n`. -/
theorem roundFloat_eq_of (prec emin e : ℤ) (x : ℚ) (n : ℤ) (hc : emin ≤ e + 1 - prec)
    (hl : (2 : ℚ) ^ e ≤ |x|) (hr : |x| < (2 : ℚ) ^ (e + 1))
    (hn : |x / (2 : ℚ) ^ (e + 1 - prec) - n| < 1 / 2) :
    roundFloat prec emin x = (n : ℚ) * (2 : ℚ) ^ (e + 1 - prec) := by
  unfold roundFloat
  rw [ulpExp_eq prec emin e x hc hl hr, roundHalfEven_eq_of_abs_lt _ n hn]

/-- An integer multiple of `2 ^ k` is an integer multiple of `2 ^ c` for `c ≤ k`. -/
theorem multiple_of_le (n : ℤ) (k c : ℤ) (hc : c ≤ k) :
    ∃ m : ℤ, (n : ℚ) * (2 : ℚ) ^ k = (m : ℚ) * (2 : ℚ) ^ c := by
  refine ⟨n * 2 ^ (k - c).toNat, ?_⟩
  have h : k = (k - c).toNat + c := by omega
  conv_lhs => rw [h]
  rw [zpow_add₀ (by norm_num)]
  push_cast
  rw [zpow_natCast]
  ring

/-- Rounding a value below `2 ^ k` keeps it below an integer multiple of
`2 ^ (k - prec)` that is above it. -/
theorem roundFloat_le_of_lt (prec emin k : ℤ) (x : ℚ) (n : ℤ) (hk : emin ≤ k - prec)
    (h0 : 1 ≤ k) (hx : |x| < (2 : ℚ) ^ k) (hb : x ≤ (n : ℚ) * (2 : ℚ) ^ (k - prec)) :
    roundFloat prec emin x ≤ (n : ℚ) * (2 : ℚ) ^ (k - prec) := by
  obtain ⟨m, hm⟩ := multiple_of_le n (k - prec) (ulpExp prec emin x) (ulpExp_le prec emin k x hk h0 hx)
  exact roundFloat_le prec emin x _ m hm hb

/-- Rounding a value below `2 ^ k` keeps it above an integer multiple of
`2 ^ (k - prec)` that is below it. -/
theorem le_roundFloat_of_lt (prec emin k : ℤ) (x : ℚ) (n : ℤ) (hk : emin ≤ k - prec)
    (h0 : 1 ≤ k) (hx : |x| < (2 : ℚ) ^ k) (hb : (n : ℚ) * (2 : ℚ) ^ (k - prec) ≤ x) :
    (n : ℚ) * (2 : ℚ) ^ (k - prec) ≤ roundFloat prec emin x := by
  obtain ⟨m, hm⟩ := multiple_of_le n (k - prec) (ulpExp prec emin x) (ulpExp_le prec emin k x hk h0 hx)
  exact le_roundFloat prec emin x _ m hm hb

/-- Rounding a value below `2 ^ k` that is an integer multiple of
`2 ^ (k - prec)` keeps it. -/
theorem roundFloat_eq_self_of_lt (prec emin k : ℤ) (x : ℚ) (n : ℤ) (hk : emin ≤ k - prec)
    (h0 : 1 ≤ k) (hx : |x| < (2 : ℚ) ^ k) (hb : x = (n : ℚ) * (2 : ℚ) ^ (k - prec)) :
    roundFloat prec emin x = x := by
  obtain ⟨m, hm⟩ := multiple_of_le n (k - prec) (ulpExp prec emin x) (ulpExp_le prec emin k x hk h0 hx)
  exact roundFloat_eq_self prec emin x m (hb.trans hm)

theorem fround_zero : fround 0 = 0 := by
  unfold fround
  exact roundFloat_eq_self 24 (-149) 0 0 (by simp)

/-- The binary64 quotient `N / 64` is exact for every `N` below `2 ^ 53`. -/
theorem toDouble_div_64 (N : ℕ) (hN : N < 2 ^ 53) : toDouble ((N : ℚ) / 64) = (N : ℚ) / 64 := by
  unfold toDouble
  apply roundFloat_eq_self_of_lt 53 (-1074) 47 _ (N : ℤ) (by norm_num) (by norm_num)
  · rw [abs_of_nonneg (by positivity)]
    have h : (N : ℚ) < 2 ^ 53 := by exact_mod_cast hN
    have h2 : ((2 : ℚ) ^ (47 : ℤ)) = 2 ^ 53 / 64 := by norm_num
    rw [h2]
    exact div_lt_div_of_pos_right h (by norm_num)
  · have h2 : ((2 : ℚ) ^ ((47 : ℤ) - 53)) = 1 / 64 := by norm_num
    rw [h2]
    push_cast
    ring

/-- The work-group count is the exact ceiling of `N / 64`. -/
theorem workgroupCount_eq (N : ℕ) (hN : N < 2 ^ 53) : workgroupCount N = ⌈(N : ℚ) / 64⌉ := by
  unfold workgroupCount mathCeil
  rw [toDouble_div_64 N hN]


/-! ## Seeding: the array after the loop -/

theorem store_length (a : List ℚ) (i : ℕ) (v : ℚ) : (store a i v).length = a.length := by
  simp [store]

theorem seedBody_length (w h : ℕ) (random : ℕ → ℚ) (a : List ℚ) (i : ℕ) :
    (seedBody w h random a i).length = a.length := by
  simp [seedBody, store_length]

theorem foldl_seedBody_length (w h : ℕ) (random : ℕ → ℚ) (l : List ℕ) (a : List ℚ) :
    (l.foldl (seedBody w h random) a).length = a.length := by
  induction l generalizing a with
  | nil => rfl
  | cons i l ih => rw [List.foldl_cons, ih, seedBody_length]

theorem inputData_length (w h : ℕ) (random : ℕ → ℚ) (N : ℕ) :
    (inputData w h random N).length = N * 8 := by
  unfold inputData
  rw [foldl_seedBody_length, List.length_replicate]

/-! ## Sizes -/

/-- C3: for every particle count `N` the seed array of `N * 8` 32-bit floats has
`BUFFER_SIZE = N * BODY_SIZE` bytes with `BODY_SIZE = 32`; that byte size is
the size of the three buffers, of both recorded copies and of the range that
is mapped and taken for decoding; and the float stride `8` of the offsets
`i * 8` used by the seeding loop and by `draw` is `BODY_SIZE / 4`. -/
theorem stride_invariant (N : ℕ) (w h : ℕ) (random : ℕ → ℚ) :
    (inputData w h random N).length = N * 8 ∧
    BYTES_PER_ELEMENT * (inputData w h random N).length = BUFFER_SIZE N ∧
    BUFFER_SIZE N = N * BODY_SIZE ∧ BODY_SIZE = 32 ∧
    (∀ b, (bufferDescriptor N b).size = BUFFER_SIZE N) ∧
    (∀ c ∈ recordedCommands N, ∀ src srcOff dst dstOff sz,
      c = Command.copyBufferToBuffer src srcOff dst dstOff sz →
        srcOff = 0 ∧ dstOff = 0 ∧ sz = BUFFER_SIZE N) ∧
    (∀ ok, ∀ op ∈ renderLoop (α := ℚ) N ok, ∀ b o sz,
      op = Op.mapAsync b o sz ∨ op = Op.getMappedRange b o sz → o = 0 ∧ sz = BUFFER_SIZE N) ∧
    BODY_SIZE / BYTES_PER_ELEMENT = 8 ∧
    (∀ (data : List ℚ) (i : ℕ), drawReads data i =
      (data[i * (BODY_SIZE / BYTES_PER_ELEMENT) + 0]?,
       data[i * (BODY_SIZE / BYTES_PER_ELEMENT) + 1]?,
       data[i * (BODY_SIZE / BYTES_PER_ELEMENT) + 4]?)) ∧
    (∀ (a : List ℚ) (i k : ℕ),
      k < i * (BODY_SIZE / BYTES_PER_ELEMENT) ∨ (i + 1) * (BODY_SIZE / BYTES_PER_ELEMENT) ≤ k →
      (seedBody w h random a i)[k]? = a[k]?) := by
  refine ⟨inputData_length w h random N, ?_, rfl, rfl, ?_, ?_, ?_, rfl, ?_, ?_⟩
  · rw [inputData_length]
    simp only [BYTES_PER_ELEMENT, BUFFER_SIZE, BODY_SIZE]
    omega
  · intro b
    cases b <;> rfl
  · intro c hc src srcOff dst dstOff sz hcopy
    simp only [recordedCommands, List.mem_cons, List.mem_singleton, List.not_mem_nil,
      or_false] at hc
    rcases hc with hc | hc | hc <;> rw [hc] at hcopy <;> cases hcopy <;> simp
  · intro ok op hop b o sz hmap
    cases ok <;>
      simp only [renderLoop, List.mem_cons, List.mem_singleton, List.not_mem_nil,
        or_false, List.cons_append, List.nil_append, if_true, if_false, List.append_nil,
        Bool.false_eq_true] at hop <;>
      rcases hmap with hm | hm <;> rw [hm] at hop <;> simp at hop <;> simp [hop]
  · intro data i
    rfl
  · intro a i k hk
    have h8 : BODY_SIZE / BYTES_PER_ELEMENT = 8 := rfl
    rw [h8] at hk
    simp only [seedBody, store]
    repeat rw [List.getElem?_set_ne (by omega)]

/-! ## Dispatch -/

/-- C5: for every `N` from 1 to 1000 the work-group count passed to
`dispatchWorkgroups` is the integer ceiling of `N / 64`: it is the least `g`
with `64 * g ≥ N`, so every particle index below `N` is the index of a
work-item and fewer than 64 work-items have an index of `N` or more. -/
theorem dispatch_coverage (N : ℕ) (h2 : N ≤ 1000) :
    workgroupCount N = ⌈(N : ℚ) / 64⌉ ∧
    workgroupCount N = (((N + 63) / 64 : ℕ) : ℤ) ∧
    (N : ℤ) ≤ WORKGROUP_SIZE * workgroupCount N ∧
    (∀ g : ℤ, (N : ℤ) ≤ WORKGROUP_SIZE * g → workgroupCount N ≤ g) ∧
    (∀ i : ℕ, i < N → (i : ℤ) < WORKGROUP_SIZE * workgroupCount N) ∧
    WORKGROUP_SIZE * workgroupCount N - N < WORKGROUP_SIZE := by
  have hN : N < 2 ^ 53 := lt_of_le_of_lt h2 (by norm_num)
  have hw := workgroupCount_eq N hN
  have hceil : ⌈(N : ℚ) / 64⌉ = (((N + 63) / 64 : ℕ) : ℤ) := by
    obtain ⟨g, hg⟩ : ∃ g : ℕ, g = (N + 63) / 64 := ⟨_, rfl⟩
    rw [← hg, Int.ceil_eq_iff]
    have hd : 64 * g ≤ N + 63 := by rw [hg]; exact Nat.mul_div_le _ _
    have hge : N ≤ 64 * g := by
      have := Nat.lt_mul_div_succ (N + 63) (show 0 < 64 by norm_num)
      rw [← hg] at this
      omega
    have hd1 : (64 : ℚ) * (g : ℚ) ≤ (N : ℚ) + 63 := by exact_mod_cast hd
    have hge1 : (N : ℚ) ≤ 64 * (g : ℚ) := by exact_mod_cast hge
    rw [Int.cast_natCast]
    constructor
    · rw [lt_div_iff₀ (by norm_num)]
      linarith
    · rw [div_le_iff₀ (by norm_num)]
      linarith
  have hcov : (N : ℤ) ≤ WORKGROUP_SIZE * workgroupCount N := by
    rw [hw, hceil]
    simp only [WORKGROUP_SIZE]
    omega
  refine ⟨hw, hw.trans hceil, hcov, ?_, ?_, ?_⟩
  · intro g hg
    rw [hw, hceil]
    simp only [WORKGROUP_SIZE] at hg
    omega
  · intro i hi
    have : (i : ℤ) < N := by exact_mod_cast hi
    omega
  · rw [hw, hceil]
    simp only [WORKGROUP_SIZE]
    omega

theorem dispatch_coverage_witness :
    workgroupCount 65 = ⌈((65 : ℕ) : ℚ) / 64⌉ ∧
    workgroupCount 65 = (((65 + 63) / 64 : ℕ) : ℤ) ∧
    ((65 : ℕ) : ℤ) ≤ WORKGROUP_SIZE * workgroupCount 65 ∧
    (∀ g : ℤ, ((65 : ℕ) : ℤ) ≤ WORKGROUP_SIZE * g → workgroupCount 65 ≤ g) ∧
    (∀ i : ℕ, i < 65 → (i : ℤ) < WORKGROUP_SIZE * workgroupCount 65) ∧
    WORKGROUP_SIZE * workgroupCount 65 - (65 : ℕ) < WORKGROUP_SIZE :=
  dispatch_coverage 65 (by decide)


/-! ## Seeding: the records -/

theorem seedBody_outside (w h : ℕ) (random : ℕ → ℚ) (a : List ℚ) (i k : ℕ)
    (hk : k < i * 8 ∨ (i + 1) * 8 ≤ k) : (seedBody w h random a i)[k]? = a[k]? := by
  simp only [seedBody, store]
  repeat rw [List.getElem?_set_ne (by omega)]

theorem seedBody_inside (w h : ℕ) (random : ℕ → ℚ) (a : List ℚ) (i : ℕ)
    (hlen : i * 8 + 7 < a.length) :
    (seedBody w h random a i)[i * 8 + 0]? = some (fround (toDouble ((w : ℚ) * random (3 * i)))) ∧
    (seedBody w h random a i)[i * 8 + 1]? =
      some (fround (toDouble ((h : ℚ) * random (3 * i + 1)))) ∧
    (seedBody w h random a i)[i * 8 + 2]? = some (fround 0) ∧
    (seedBody w h random a i)[i * 8 + 3]? = some (fround 0) ∧
    (seedBody w h random a i)[i * 8 + 4]? = some (fround (toDouble (1 + random (3 * i + 2)))) ∧
    (seedBody w h random a i)[i * 8 + 5]? = some (fround 0) ∧
    (seedBody w h random a i)[i * 8 + 6]? = some (fround 0) ∧
    (seedBody w h random a i)[i * 8 + 7]? = some (fround 0) := by
  simp only [seedBody, store]
  refine ⟨?_, ?_, ?_, ?_, ?_, ?_, ?_, ?_⟩ <;>
    simp [List.getElem?_set] <;> omega

/-- The record of index `i` after `n > i` rounds of the seeding loop. -/
theorem foldl_seedBody_record (w h : ℕ) (random : ℕ → ℚ) (a : List ℚ) (n i : ℕ) (hi : i < n)
    (hlen : n * 8 ≤ a.length) :
    ∀ j, j < 8 →
      ((List.range n).foldl (seedBody w h random) a)[i * 8 + j]? =
        (seedBody w h random a i)[i * 8 + j]? := by
  induction n with
  | zero => omega
  | succ n ih =>
    intro j hj
    rw [List.range_succ, List.foldl_append, List.foldl_cons, List.foldl_nil]
    rcases Nat.lt_succ_iff_lt_or_eq.mp hi with hlt | heq
    · rw [seedBody_outside _ _ _ _ _ _ (by omega)]
      exact ih hlt (by omega) j hj
    · subst heq
      have hlen2 : i * 8 + 7 < ((List.range i).foldl (seedBody w h random) a).length := by
        rw [foldl_seedBody_length]; omega
      have hlen3 : i * 8 + 7 < a.length := by omega
      have h1 := seedBody_inside w h random _ i hlen2
      have h2 := seedBody_inside w h random a i hlen3
      obtain ⟨a0, a1, a2, a3, a4, a5, a6, a7⟩ := h1
      obtain ⟨b0, b1, b2, b3, b4, b5, b6, b7⟩ := h2
      have hcases : j = 0 ∨ j = 1 ∨ j = 2 ∨ j = 3 ∨ j = 4 ∨ j = 5 ∨ j = 6 ∨ j = 7 := by omega
      rcases hcases with h | h | h | h | h | h | h | h <;> subst h
      · rw [a0, b0]
      · rw [a1, b1]
      · rw [a2, b2]
      · rw [a3, b3]
      · rw [a4, b4]
      · rw [a5, b5]
      · rw [a6, b6]
      · rw [a7, b7]

/-- The record the seeding loop leaves for particle `i`. -/
theorem inputData_record (w h : ℕ) (random : ℕ → ℚ) (N i : ℕ) (hi : i < N) :
    (inputData w h random N)[i * 8 + 0]? =
      some (fround (toDouble ((w : ℚ) * random (3 * i)))) ∧
    (inputData w h random N)[i * 8 + 1]? =
      some (fround (toDouble ((h : ℚ) * random (3 * i + 1)))) ∧
    (inputData w h random N)[i * 8 + 2]? = some 0 ∧
    (inputData w h random N)[i * 8 + 3]? = some 0 ∧
    (inputData w h random N)[i * 8 + 4]? = some (fround (toDouble (1 + random (3 * i + 2)))) ∧
    (inputData w h random N)[i * 8 + 5]? = some 0 ∧
    (inputData w h random N)[i * 8 + 6]? = some 0 ∧
    (inputData w h random N)[i * 8 + 7]? = some 0 := by
  have hlen : N * 8 ≤ (List.replicate (N * 8) (0 : ℚ)).length := by simp
  have hrec := foldl_seedBody_record w h random (List.replicate (N * 8) 0) N i hi hlen
  have hin := seedBody_inside w h random (List.replicate (N * 8) 0) i (by simp; omega)
  obtain ⟨b0, b1, b2, b3, b4, b5, b6, b7⟩ := hin
  rw [fround_zero] at b2 b3 b5 b6 b7
  unfold inputData
  exact ⟨(hrec 0 (by omega)).trans b0, (hrec 1 (by omega)).trans b1,
    (hrec 2 (by omega)).trans b2, (hrec 3 (by omega)).trans b3,
    (hrec 4 (by omega)).trans b4, (hrec 5 (by omega)).trans b5,
    (hrec 6 (by omega)).trans b6, (hrec 7 (by omega)).trans b7⟩

/-- Rounding a value below `2 ^ prec` in magnitude keeps it between the
integers that bound it. -/
theorem roundFloat_between (prec emin : ℤ) (hp : 1 ≤ prec) (he : emin ≤ 0) (x : ℚ) (lo hi : ℤ)
    (hx : |x| < (2 : ℚ) ^ prec) (hlo : (lo : ℚ) ≤ x) (hhi : x ≤ (hi : ℚ)) :
    (lo : ℚ) ≤ roundFloat prec emin x ∧ roundFloat prec emin x ≤ (hi : ℚ) := by
  have h1 := le_roundFloat_of_lt prec emin prec x lo (by omega) hp hx (by simpa using hlo)
  have h2 := roundFloat_le_of_lt prec emin prec x hi (by omega) hp hx (by simpa using hhi)
  simp only [sub_self, zpow_zero, mul_one] at h1 h2
  exact ⟨h1, h2⟩

/-- The stored value of a binary64 result that lies between two integers below
`2 ^ 24` in magnitude lies between them too. -/
theorem stored_between (t : ℚ) (lo hi : ℤ) (hlo0 : -(2 : ℚ) ^ (24 : ℤ) < lo)
    (hhi0 : (hi : ℚ) < (2 : ℚ) ^ (24 : ℤ)) (hlo : (lo : ℚ) ≤ t) (hhi : t ≤ (hi : ℚ)) :
    (lo : ℚ) ≤ fround (toDouble t) ∧ fround (toDouble t) ≤ (hi : ℚ) := by
  have h24 : (2 : ℚ) ^ (24 : ℤ) < (2 : ℚ) ^ (53 : ℤ) := by norm_num
  have ht : |t| < (2 : ℚ) ^ (53 : ℤ) := by
    rw [abs_lt]; constructor <;> linarith
  obtain ⟨d1, d2⟩ := roundFloat_between 53 (-1074) (by norm_num) (by norm_num) t lo hi ht hlo hhi
  have hd : |toDouble t| < (2 : ℚ) ^ (24 : ℤ) := by
    unfold toDouble
    rw [abs_lt]; constructor <;> linarith
  exact roundFloat_between 24 (-149) (by norm_num) (by norm_num) (toDouble t) lo hi hd d1 d2


/-- C4, as amended: for canvas sizes below `2 ^ 24` and every sequence of
`Math.random()` results in `[0, 1)`, every record the seeding loop writes has
`0 ≤ x ≤ canvasWidth`, `0 ≤ y ≤ canvasHeight`, `vx = vy = 0`,
`1 ≤ mass ≤ 2` and three padding slots equal to `0`.  The upper bounds are
not strict: the stores round to binary32. -/
theorem seeding_bounds (w h N : ℕ) (random : ℕ → ℚ) (hw : w < 2 ^ 24) (hh : h < 2 ^ 24)
    (hr : ∀ k, 0 ≤ random k ∧ random k < 1) (i : ℕ) (hi : i < N) :
    ∃ x y mass : ℚ,
      (inputData w h random N)[i * 8 + 0]? = some x ∧
      (inputData w h random N)[i * 8 + 1]? = some y ∧
      (inputData w h random N)[i * 8 + 2]? = some 0 ∧
      (inputData w h random N)[i * 8 + 3]? = some 0 ∧
      (inputData w h random N)[i * 8 + 4]? = some mass ∧
      (inputData w h random N)[i * 8 + 5]? = some 0 ∧
      (inputData w h random N)[i * 8 + 6]? = some 0 ∧
      (inputData w h random N)[i * 8 + 7]? = some 0 ∧
      0 ≤ x ∧ x ≤ w ∧ 0 ≤ y ∧ y ≤ h ∧ 1 ≤ mass ∧ mass ≤ 2 := by
  obtain ⟨b0, b1, b2, b3, b4, b5, b6, b7⟩ := inputData_record w h random N i hi
  have h24 : (2 : ℚ) ^ (24 : ℤ) = 16777216 := by norm_num
  have hwq : (w : ℚ) < 16777216 := by exact_mod_cast hw
  have hhq : (h : ℚ) < 16777216 := by exact_mod_cast hh
  have hw0 : (0 : ℚ) ≤ w := Nat.cast_nonneg w
  have hh0 : (0 : ℚ) ≤ h := Nat.cast_nonneg h
  obtain ⟨rx0, rx1⟩ := hr (3 * i)
  obtain ⟨ry0, ry1⟩ := hr (3 * i + 1)
  obtain ⟨rm0, rm1⟩ := hr (3 * i + 2)
  have hx := stored_between ((w : ℚ) * random (3 * i)) 0 (w : ℤ)
    (by rw [h24]; norm_num) (by rw [h24]; exact_mod_cast hwq)
    (by simpa using mul_nonneg hw0 rx0)
    (by simpa using mul_le_of_le_one_right hw0 rx1.le)
  have hy := stored_between ((h : ℚ) * random (3 * i + 1)) 0 (h : ℤ)
    (by rw [h24]; norm_num) (by rw [h24]; exact_mod_cast hhq)
    (by simpa using mul_nonneg hh0 ry0)
    (by simpa using mul_le_of_le_one_right hh0 ry1.le)
  have hm := stored_between (1 + random (3 * i + 2)) 1 2
    (by rw [h24]; norm_num) (by rw [h24]; norm_num)
    (by push_cast; linarith) (by push_cast; linarith)
  refine ⟨_, _, _, b0, b1, b2, b3, b4, b5, b6, b7, ?_, ?_, ?_, ?_, ?_, ?_⟩
  · simpa using hx.1
  · simpa using hx.2
  · simpa using hy.1
  · simpa using hy.2
  · simpa using hm.1
  · simpa using hm.2

theorem seeding_bounds_witness :
    ∃ x y mass : ℚ,
      (inputData 800 600 (fun _ => 1 / 2) 2)[1 * 8 + 0]? = some x ∧
      (inputData 800 600 (fun _ => 1 / 2) 2)[1 * 8 + 1]? = some y ∧
      (inputData 800 600 (fun _ => 1 / 2) 2)[1 * 8 + 2]? = some 0 ∧
      (inputData 800 600 (fun _ => 1 / 2) 2)[1 * 8 + 3]? = some 0 ∧
      (inputData 800 600 (fun _ => 1 / 2) 2)[1 * 8 + 4]? = some mass ∧
      (inputData 800 600 (fun _ => 1 / 2) 2)[1 * 8 + 5]? = some 0 ∧
      (inputData 800 600 (fun _ => 1 / 2) 2)[1 * 8 + 6]? = some 0 ∧
      (inputData 800 600 (fun _ => 1 / 2) 2)[1 * 8 + 7]? = some 0 ∧
      0 ≤ x ∧ x ≤ ((800 : ℕ) : ℚ) ∧ 0 ≤ y ∧ y ≤ ((600 : ℕ) : ℚ) ∧ 1 ≤ mass ∧ mass ≤ 2 :=
  seeding_bounds 800 600 2 (fun _ => 1 / 2) (by norm_num) (by norm_num)
    (fun _ => by norm_num) 1 (by norm_num)

/-- The stored product of 1920 and the random result `1 - 2 ^ (-30)` is 1920. -/
theorem stored_width_rounds_up :
    fround (toDouble (((1920 : ℕ) : ℚ) * (1 - 1 / 2 ^ 30))) = 1920 := by
  have hd : toDouble (((1920 : ℕ) : ℚ) * (1 - 1 / 2 ^ 30)) = 1920 * (1 - 1 / 2 ^ 30) := by
    unfold toDouble
    have := roundFloat_eq_self_of_lt 53 (-1074) 11 (1920 * (1 - 1 / 2 ^ 30))
      (1920 * (2 ^ 30 - 1) * 2 ^ 12) (by norm_num) (by norm_num)
      (by rw [abs_of_nonneg (by norm_num)]; norm_num) (by norm_num)
    simpa using this
  rw [hd]
  unfold fround
  have := roundFloat_eq_of 24 (-149) 10 (1920 * (1 - 1 / 2 ^ 30)) 15728640 (by norm_num)
    (by rw [abs_of_nonneg (by norm_num)]; norm_num)
    (by rw [abs_of_nonneg (by norm_num)]; norm_num)
    (by rw [abs_lt]; constructor <;> norm_num)
  rw [this]
  norm_num

/-- The stored product of 1080 and the random result `1 - 2 ^ (-30)` is 1080. -/
theorem stored_height_rounds_up :
    fround (toDouble (((1080 : ℕ) : ℚ) * (1 - 1 / 2 ^ 30))) = 1080 := by
  have hd : toDouble (((1080 : ℕ) : ℚ) * (1 - 1 / 2 ^ 30)) = 1080 * (1 - 1 / 2 ^ 30) := by
    unfold toDouble
    have := roundFloat_eq_self_of_lt 53 (-1074) 11 (1080 * (1 - 1 / 2 ^ 30))
      (1080 * (2 ^ 30 - 1) * 2 ^ 12) (by norm_num) (by norm_num)
      (by rw [abs_of_nonneg (by norm_num)]; norm_num) (by norm_num)
    simpa using this
  rw [hd]
  unfold fround
  have := roundFloat_eq_of 24 (-149) 10 (1080 * (1 - 1 / 2 ^ 30)) 8847360 (by norm_num)
    (by rw [abs_of_nonneg (by norm_num)]; norm_num)
    (by rw [abs_of_nonneg (by norm_num)]; norm_num)
    (by rw [abs_lt]; constructor <;> norm_num)
  rw [this]
  norm_num

/-- The stored sum of 1 and the random result `1 - 2 ^ (-30)` is 2. -/
theorem stored_mass_rounds_up : fround (toDouble (1 + (1 - 1 / 2 ^ 30))) = 2 := by
  have hd : toDouble (1 + (1 - 1 / 2 ^ 30)) = 1 + (1 - 1 / 2 ^ 30) := by
    unfold toDouble
    exact roundFloat_eq_self_of_lt 53 (-1074) 1 (1 + (1 - 1 / 2 ^ 30))
      ((2 ^ 31 - 1) * 2 ^ 22) (by norm_num) (by norm_num)
      (by rw [abs_of_nonneg (by norm_num)]; norm_num) (by norm_num)
  rw [hd]
  unfold fround
  have := roundFloat_eq_of 24 (-149) 0 (1 + (1 - 1 / 2 ^ 30)) 16777216 (by norm_num)
    (by rw [abs_of_nonneg (by norm_num)]; norm_num)
    (by rw [abs_of_nonneg (by norm_num)]; norm_num)
    (by rw [abs_lt]; constructor <;> norm_num)
  rw [this]
  norm_num

/-- C4 fails as stated: on a 1920 by 1080 canvas, when `Math.random()` returns
`1 - 2 ^ (-30)` (a binary64 value in `[0, 1)`), the record written for particle
0 has `x = 1920 = canvasWidth`, `y = 1080 = canvasHeight` and `mass = 2`. -/
theorem seeding_strict_bounds_fail :
    (0 : ℚ) ≤ 1 - 1 / 2 ^ 30 ∧ (1 - 1 / 2 ^ 30 : ℚ) < 1 ∧
    ∃ x y mass : ℚ,
      (inputData 1920 1080 (fun _ => 1 - 1 / 2 ^ 30) 2)[0 * 8 + 0]? = some x ∧
      (inputData 1920 1080 (fun _ => 1 - 1 / 2 ^ 30) 2)[0 * 8 + 1]? = some y ∧
      (inputData 1920 1080 (fun _ => 1 - 1 / 2 ^ 30) 2)[0 * 8 + 4]? = some mass ∧
      ¬ x < ((1920 : ℕ) : ℚ) ∧ ¬ y < ((1080 : ℕ) : ℚ) ∧ ¬ mass < 2 := by
  obtain ⟨b0, b1, -, -, b4, -, -, -⟩ :=
    inputData_record 1920 1080 (fun _ => 1 - 1 / 2 ^ 30) 2 0 (by norm_num)
  refine ⟨by norm_num, by norm_num, _, _, _, b0, b1, b4, ?_, ?_, ?_⟩
  · rw [stored_width_rounds_up]; norm_num
  · rw [stored_height_rounds_up]; norm_num
  · rw [stored_mass_rounds_up]; norm_num


/-! ## One run of `renderLoop` on a live device -/

theorem writeWords_full {α : Type} (dst src : List α) (h : dst.length ≤ src.length) :
    writeWords dst 0 src = src := by
  simp [writeWords, List.drop_eq_nil_of_le h]

theorem workgroupCount_nonneg (N : ℕ) : 0 ≤ workgroupCount N := by
  unfold workgroupCount mathCeil
  apply Int.ceil_nonneg
  unfold toDouble
  have h := le_roundFloat 53 (-1074) ((N : ℚ) / 64) 0 0 (by simp) (by positivity)
  exact h

/-- The recorded commands pass validation when there is at least one particle. -/
theorem recordedCommands_permitted (N : ℕ) (hN : 1 ≤ N) :
    (recordedCommands N).all (commandPermitted N) = true := by
  have hg := workgroupCount_nonneg N
  simp [recordedCommands, commandPermitted, bindGroup, bindGroupLayout, bufferDescriptor,
    BUFFER_SIZE, BODY_SIZE, hg]
  omega

/-- A dispatch of the kernel `kernelOf f` stores `f` of the input contents in
the output buffer and changes nothing else. -/
theorem dispatch_kernelOf {α : Type} (f : List α → List α) (g : ℤ)
    (c : BufferName → List α) :
    dispatch (kernelOf f) g c = Function.update c .outputBuffer (f (c .inputBuffer)) := by
  simp [dispatch, bindGroup, writableBinding, bindGroupLayout, kernelOf, bindingView]

/-- The buffer contents after the commands of one run. -/
theorem recordedCommands_contents {α : Type} (N : ℕ) (f : List α → List α)
    (c : BufferName → List α) (hlen : (f (c .inputBuffer)).length = N * 8)
    (hin : (c .inputBuffer).length ≤ N * 8) (hst : (c .stagingBuffer).length ≤ N * 8) :
    ∀ b, (recordedCommands N).foldl (execCommand (kernelOf f)) c b = f (c .inputBuffer) := by
  have h8 : BUFFER_SIZE N / 4 = N * 8 := by simp only [BUFFER_SIZE, BODY_SIZE]; omega
  have htake : List.take (N * 8) (f (c .inputBuffer)) = f (c .inputBuffer) :=
    List.take_of_length_le (by omega)
  intro b
  simp only [recordedCommands, List.foldl_cons, List.foldl_nil, execCommand, dispatch_kernelOf,
    h8, Nat.zero_div, List.drop_zero]
  cases b <;>
    simp [Function.update, htake, writeWords_full, hlen, hin, hst]


theorem run_append {α : Type} (N : ℕ) (k : Kernel α) (s : State α) (xs ys : List (Op α)) :
    run N k s (xs ++ ys) = (run N k s xs).bind fun s1 => run N k s1 ys := by
  induction xs generalizing s with
  | nil => simp [run]
  | cons x xs ih =>
    simp only [List.cons_append, run]
    cases exec N k s x with
    | none => simp
    | some s1 => simpa using ih s1

/-- One run of `renderLoop` whose mapping fulfils, started with every buffer
unmapped and holding `N * 8` words: the three buffers end holding `f` of the
input contents, that value is handed to `draw`, and every buffer is unmapped
again. -/
theorem run_renderLoop {α : Type} (N : ℕ) (hN : 1 ≤ N) (f : List α → List α) (s : State α)
    (hlen : (f (s.contents .inputBuffer)).length = N * 8)
    (hmap : ∀ b, s.mapState b = .unmapped)
    (hin : (s.contents .inputBuffer).length ≤ N * 8)
    (hst : (s.contents .stagingBuffer).length ≤ N * 8) :
    ∃ s1, run N (kernelOf f) s (renderLoop N true) = some s1 ∧
      (∀ b, s1.contents b = f (s.contents .inputBuffer)) ∧
      (∀ b, s1.mapState b = .unmapped) ∧
      s1.drawn = s.drawn ++ [f (s.contents .inputBuffer)] ∧
      s1.animationFrames = s.animationFrames + 1 ∧
      s1.thrown = s.thrown := by
  have hperm := recordedCommands_permitted N hN
  have hcont := recordedCommands_contents N f s.contents hlen hin hst
  have h8 : BUFFER_SIZE N / 4 = N * 8 := by simp only [BUFFER_SIZE, BODY_SIZE]; omega
  have h4 : BUFFER_SIZE N % 4 = 0 := by simp only [BUFFER_SIZE, BODY_SIZE]; omega
  have htake : List.take (N * 8) (f (s.contents .inputBuffer)) = f (s.contents .inputBuffer) :=
    List.take_of_length_le (by omega)
  have hmi := hmap .inputBuffer
  have hmo := hmap .outputBuffer
  have hms := hmap .stagingBuffer
  simp only [recordedCommands, List.all_cons, List.all_nil, Bool.and_true, Bool.and_eq_true]
    at hperm
  obtain ⟨hp1, hp2, hp3⟩ := hperm
  have hcont2 : execCommand (kernelOf f)
      (execCommand (kernelOf f)
        (execCommand (kernelOf f) s.contents (Command.dispatchWorkgroups (workgroupCount N)))
        (Command.copyBufferToBuffer .outputBuffer 0 .stagingBuffer 0 (BUFFER_SIZE N)))
      (Command.copyBufferToBuffer .outputBuffer 0 .inputBuffer 0 (BUFFER_SIZE N)) =
      fun _ => f (s.contents .inputBuffer) := by
    funext b
    have := hcont b
    simpa only [recordedCommands, List.foldl_cons, List.foldl_nil] using this
  simp [renderLoop, run, exec, permitted, hp1, hp2, hp3, mapStates, mapStep, recordedCommands,
    commandBuffers, bindGroup, effect, hmi, hmo, hms, bufferDescriptor, h4, h8, hcont2, htake]
  intro b
  cases b <;> rfl

theorem frameLoop_okFrame_cons {α : Type} (N : ℕ) (envs : List FrameEnv) :
    frameLoop (α := α) N (okFrame :: envs) = renderLoop N true ++ frameLoop N envs := by
  simp [frameLoop, okFrame]

/-- The frame loop for `K` runs whose mappings fulfil, started with every
buffer unmapped: the input buffer ends holding `f` applied `K` times to what it
held, and the snapshots handed to `draw` are the `K` iterates in order. -/
theorem run_frameLoop {α : Type} (N : ℕ) (hN : 1 ≤ N) (f : List α → List α)
    (hf : ∀ l : List α, l.length = N * 8 → (f l).length = N * 8) (K : ℕ) :
    ∀ s : State α, (∀ b, s.mapState b = .unmapped) →
      (s.contents .inputBuffer).length = N * 8 →
      (s.contents .stagingBuffer).length ≤ N * 8 →
      ∃ s1, run N (kernelOf f) s (frameLoop N (List.replicate K okFrame)) = some s1 ∧
        s1.contents .inputBuffer = f^[K] (s.contents .inputBuffer) ∧
        (1 ≤ K → ∀ b, s1.contents b = f^[K] (s.contents .inputBuffer)) ∧
        (∀ b, s1.mapState b = .unmapped) ∧
        s1.drawn = s.drawn ++ (List.range K).map (fun j => f^[j + 1] (s.contents .inputBuffer)) ∧
        s1.animationFrames = s.animationFrames + K ∧
        s1.thrown = s.thrown := by
  induction K with
  | zero =>
    intro s hmap _ _
    exact ⟨s, by simp [frameLoop, run], rfl, by omega, hmap, by simp, rfl, rfl⟩
  | succ K ih =>
    intro s hmap hin hst
    obtain ⟨s1, hrun1, hc1, hm1, hd1, ha1, ht1⟩ :=
      run_renderLoop N hN f s (hf _ hin) hmap hin.le hst
    have hin1 : (s1.contents .inputBuffer).length = N * 8 := by
      rw [hc1 .inputBuffer]; exact hf _ hin
    have hst1 : (s1.contents .stagingBuffer).length ≤ N * 8 := by
      rw [hc1 .stagingBuffer]; exact (hf _ hin).le
    obtain ⟨s2, hrun2, hc2, hall2, hm2, hd2, ha2, ht2⟩ := ih s1 hm1 hin1 hst1
    refine ⟨s2, ?_, ?_, ?_, hm2, ?_, ?_, ?_⟩
    · rw [List.replicate_succ, frameLoop_okFrame_cons, run_append, hrun1]
      exact hrun2
    · rw [hc2, hc1 .inputBuffer, Function.iterate_succ_apply]
    · intro _ b
      rcases Nat.eq_zero_or_pos K with hK | hK
      · subst hK
        have h0 : s2 = s1 := by
          have := hrun2
          simp [frameLoop, run] at this
          exact this.symm
        rw [h0, hc1 b]
        rfl
      · rw [hall2 hK b, hc1 .inputBuffer, Function.iterate_succ_apply]
    · rw [hd2, hd1, hc1 .inputBuffer, List.range_succ_eq_map, List.map_cons, List.map_map,
        List.append_assoc]
      rfl
    · rw [ha2, ha1]; omega
    · rw [ht2, ht1]

/-- The seed write of line 116 on the initial state. -/
theorem exec_writeBuffer_seed {α : Type} [Zero α] (N : ℕ) (k : Kernel α) (seed : List α)
    (hseed : seed.length = N * 8) :
    ∃ s1, exec N k (initialState N) (.writeBuffer .inputBuffer 0 seed) = some s1 ∧
      s1.contents .inputBuffer = seed ∧
      (s1.contents .stagingBuffer).length ≤ N * 8 ∧
      (∀ b, s1.mapState b = .unmapped) ∧
      s1.drawn = [] ∧ s1.animationFrames = 0 ∧ s1.thrown = [] := by
  have h8 : BUFFER_SIZE N / 4 = N * 8 := by simp only [BUFFER_SIZE, BODY_SIZE]; omega
  have hfit : 4 * (N * 8) ≤ BUFFER_SIZE N := by simp only [BUFFER_SIZE, BODY_SIZE]; omega
  have hw : writeWords (List.replicate (N * 8) (0 : α)) 0 seed = seed :=
    writeWords_full _ _ (by simp [hseed])
  simp [exec, permitted, bufferDescriptor, BYTES_PER_ELEMENT, hseed, hfit, mapStates, mapStep,
    initialState, effect, h8, hw]
  intro b
  cases b <;> rfl

/-- The script with `K` runs whose mappings fulfil. -/
theorem run_script {α : Type} [Zero α] (N : ℕ) (hN : 1 ≤ N) (f : List α → List α)
    (hf : ∀ l : List α, l.length = N * 8 → (f l).length = N * 8) (seed : List α)
    (hseed : seed.length = N * 8) (K : ℕ) :
    ∃ s1, run N (kernelOf f) (initialState N) (script N seed (List.replicate K okFrame)) =
        some s1 ∧
      s1.contents .inputBuffer = f^[K] seed ∧
      (1 ≤ K → ∀ b, s1.contents b = f^[K] seed) ∧
      (∀ b, s1.mapState b = .unmapped) ∧
      s1.drawn = (List.range K).map (fun j => f^[j + 1] seed) ∧
      s1.animationFrames = K ∧
      s1.thrown = [] := by
  obtain ⟨s0, hrun0, hc0, hst0, hm0, hd0, ha0, ht0⟩ :=
    exec_writeBuffer_seed N (kernelOf f) seed hseed
  obtain ⟨s1, hrun1, hc1, hall1, hm1, hd1, ha1, ht1⟩ :=
    run_frameLoop N hN f hf K s0 hm0 (by rw [hc0]; exact hseed) hst0
  refine ⟨s1, ?_, ?_, ?_, hm1, ?_, ?_, ?_⟩
  · simp only [script, run, hrun0, Option.some_bind]
    exact hrun1
  · rw [hc1, hc0]
  · intro hK b
    rw [hall1 hK b, hc0]
  · rw [hd1, hd0, hc0]; rfl
  · rw [ha1, ha0]; omega
  · rw [ht1, ht0]

theorem iterate_length {α : Type} (N : ℕ) (f : List α → List α)
    (hf : ∀ l : List α, l.length = N * 8 → (f l).length = N * 8) (seed : List α)
    (hseed : seed.length = N * 8) (K : ℕ) : (f^[K] seed).length = N * 8 := by
  induction K with
  | zero => exact hseed
  | succ K ih => rw [Function.iterate_succ_apply']; exact hf _ ih


theorem iterate_positions {α : Type} (N : ℕ) (f : List α → List α)
    (hf : ∀ l : List α, l.length = N * 8 → (f l).length = N * 8)
    (hpos : ∀ l : List α, l.length = N * 8 → ∀ i, i < N →
      (f l)[i * 8]? = l[i * 8]? ∧ (f l)[i * 8 + 1]? = l[i * 8 + 1]?)
    (seed : List α) (hseed : seed.length = N * 8) (K : ℕ) :
    ∀ i, i < N → (f^[K] seed)[i * 8]? = seed[i * 8]? ∧
      (f^[K] seed)[i * 8 + 1]? = seed[i * 8 + 1]? := by
  induction K with
  | zero => intro i _; exact ⟨rfl, rfl⟩
  | succ K ih =>
    intro i hi
    rw [Function.iterate_succ_apply']
    obtain ⟨h1, h2⟩ := hpos _ (iterate_length N f hf seed hseed K) i hi
    obtain ⟨h3, h4⟩ := ih i hi
    exact ⟨h1.trans h3, h2.trans h4⟩

/-- The elements `draw` reads lie inside an array of `N * 8` elements. -/
theorem draw_defined {α : Type} (N : ℕ) (d : List α) (hd : d.length = N * 8) :
    (draw N d).length = N ∧
    ∀ i, i < N → ∃ x y m, d[i * 8]? = some x ∧ d[i * 8 + 1]? = some y ∧
      d[i * 8 + 4]? = some m ∧ (draw N d)[i]? = some (some x, some y, some m) := by
  refine ⟨by simp [draw], ?_⟩
  intro i hi
  have h0 : i * 8 < d.length := by omega
  have h1 : i * 8 + 1 < d.length := by omega
  have h4 : i * 8 + 4 < d.length := by omega
  refine ⟨d[i * 8], d[i * 8 + 1], d[i * 8 + 4], List.getElem?_eq_getElem h0,
    List.getElem?_eq_getElem h1, List.getElem?_eq_getElem h4, ?_⟩
  simp [draw, drawReads, hi, List.getElem?_eq_getElem h0, List.getElem?_eq_getElem h1,
    List.getElem?_eq_getElem h4]

/-! ## The feedback loop -/

/-- C1: with the kernel an arbitrary function `f` on buffer contents, one run of
`renderLoop` leaves `input = output = f s` for the input contents `s` and hands
`f s` to `draw`; so for every `K ≥ 1` the input buffer after `K` runs holds `f`
applied `K` times to the seed, and the `K`-th snapshot handed to `draw` is that
same value. -/
theorem feedback_iterates {α : Type} [Zero α] (N : ℕ) (hN : 1 ≤ N) (f : List α → List α)
    (hf : ∀ l : List α, l.length = N * 8 → (f l).length = N * 8) :
    (∀ s : State α, (∀ b, s.mapState b = .unmapped) →
      (s.contents .inputBuffer).length = N * 8 →
      (s.contents .stagingBuffer).length ≤ N * 8 →
      ∃ s1, run N (kernelOf f) s (renderLoop N true) = some s1 ∧
        s1.contents .inputBuffer = f (s.contents .inputBuffer) ∧
        s1.contents .outputBuffer = f (s.contents .inputBuffer) ∧
        s1.drawn = s.drawn ++ [f (s.contents .inputBuffer)]) ∧
    (∀ seed : List α, seed.length = N * 8 → ∀ K, 1 ≤ K →
      ∃ s1, run N (kernelOf f) (initialState N) (script N seed (List.replicate K okFrame)) =
          some s1 ∧
        s1.contents .inputBuffer = f^[K] seed ∧
        s1.contents .outputBuffer = f^[K] seed ∧
        s1.drawn = (List.range K).map (fun j => f^[j + 1] seed) ∧
        s1.drawn[K - 1]? = some (f^[K] seed)) := by
  constructor
  · intro s hmap hin hst
    obtain ⟨s1, hrun, hc, -, hd, -, -⟩ := run_renderLoop N hN f s (hf _ hin) hmap hin.le hst
    exact ⟨s1, hrun, hc .inputBuffer, hc .outputBuffer, hd⟩
  · intro seed hseed K hK
    obtain ⟨s1, hrun, hc, hall, -, hd, -, -⟩ := run_script N hN f hf seed hseed K
    refine ⟨s1, hrun, hc, hall hK .outputBuffer, hd, ?_⟩
    rw [hd, List.getElem?_map, List.getElem?_range (by omega)]
    simp only [Option.map_some']
    congr 2
    omega

theorem feedback_iterates_witness :
    (∀ s : State ℕ, (∀ b, s.mapState b = .unmapped) →
      (s.contents .inputBuffer).length = 1 * 8 →
      (s.contents .stagingBuffer).length ≤ 1 * 8 →
      ∃ s1, run 1 (kernelOf (fun l => l.map (· + 1))) s (renderLoop 1 true) = some s1 ∧
        s1.contents .inputBuffer = (fun l => l.map (· + 1)) (s.contents .inputBuffer) ∧
        s1.contents .outputBuffer = (fun l => l.map (· + 1)) (s.contents .inputBuffer) ∧
        s1.drawn = s.drawn ++ [(fun l => l.map (· + 1)) (s.contents .inputBuffer)]) ∧
    (∀ seed : List ℕ, seed.length = 1 * 8 → ∀ K, 1 ≤ K →
      ∃ s1, run 1 (kernelOf (fun l => l.map (· + 1))) (initialState 1)
          (script 1 seed (List.replicate K okFrame)) = some s1 ∧
        s1.contents .inputBuffer = (fun l : List ℕ => l.map (· + 1))^[K] seed ∧
        s1.contents .outputBuffer = (fun l : List ℕ => l.map (· + 1))^[K] seed ∧
        s1.drawn = (List.range K).map (fun j => (fun l : List ℕ => l.map (· + 1))^[j + 1] seed) ∧
        s1.drawn[K - 1]? = some ((fun l : List ℕ => l.map (· + 1))^[K] seed)) :=
  feedback_iterates 1 (by decide) (fun l => l.map (· + 1)) (fun l h => by simpa using h)

/-- C6: if the kernel leaves the position of every particle unchanged, then for
every seed and every `K` the `x` and `y` of every particle in the input buffer
after `K` runs of the frame loop, and in every snapshot handed to `draw`, are
the seeded `x` and `y`. -/
theorem zero_force_positions {α : Type} [Zero α] (N : ℕ) (hN : 1 ≤ N) (f : List α → List α)
    (hf : ∀ l : List α, l.length = N * 8 → (f l).length = N * 8)
    (hpos : ∀ l : List α, l.length = N * 8 → ∀ i, i < N →
      (f l)[i * 8]? = l[i * 8]? ∧ (f l)[i * 8 + 1]? = l[i * 8 + 1]?)
    (seed : List α) (hseed : seed.length = N * 8) (K : ℕ) :
    ∃ s1, run N (kernelOf f) (initialState N) (script N seed (List.replicate K okFrame)) =
        some s1 ∧
      s1.drawn.length = K ∧
      (∀ i, i < N → (s1.contents .inputBuffer)[i * 8]? = seed[i * 8]? ∧
        (s1.contents .inputBuffer)[i * 8 + 1]? = seed[i * 8 + 1]?) ∧
      (∀ d ∈ s1.drawn, ∀ i, i < N → d[i * 8]? = seed[i * 8]? ∧
        d[i * 8 + 1]? = seed[i * 8 + 1]?) := by
  obtain ⟨s1, hrun, hc, -, -, hd, -, -⟩ := run_script N hN f hf seed hseed K
  refine ⟨s1, hrun, by simp [hd], ?_, ?_⟩
  · intro i hi
    rw [hc]
    exact iterate_positions N f hf hpos seed hseed K i hi
  · intro d hdmem i hi
    rw [hd, List.mem_map] at hdmem
    obtain ⟨j, -, rfl⟩ := hdmem
    exact iterate_positions N f hf hpos seed hseed (j + 1) i hi

theorem zero_force_positions_witness :
    ∃ s1, run 1 (kernelOf (fun l : List ℕ => l.set 2 9))
        (initialState 1) (script 1 [3, 4, 7, 7, 1, 0, 0, 0] (List.replicate 2 okFrame)) =
        some s1 ∧
      s1.drawn.length = 2 ∧
      (∀ i, i < 1 → (s1.contents .inputBuffer)[i * 8]? = [3, 4, 7, 7, 1, 0, 0, 0][i * 8]? ∧
        (s1.contents .inputBuffer)[i * 8 + 1]? = [3, 4, 7, 7, 1, 0, 0, 0][i * 8 + 1]?) ∧
      (∀ d ∈ s1.drawn, ∀ i, i < 1 → d[i * 8]? = [3, 4, 7, 7, 1, 0, 0, 0][i * 8]? ∧
        d[i * 8 + 1]? = [3, 4, 7, 7, 1, 0, 0, 0][i * 8 + 1]?) :=
  zero_force_positions 1 (by decide) (fun l => l.set 2 9)
    (fun l h => by simpa using h)
    (fun l _ i hi =>
      ⟨List.getElem?_set_ne (by omega), List.getElem?_set_ne (by omega)⟩)
    [3, 4, 7, 7, 1, 0, 0, 0] rfl 2

/-! ## The snapshot and the reads of `draw` -/

/-- C9: for every `N ≥ 1` the snapshot handed to `draw` in each run is a copy of
the mapped staging range and holds exactly `N` records of 8 floats; every
element `draw` reads (indices `8 i`, `8 i + 1` and `8 i + 4` for `i < N`) lies
inside the snapshot, so no read is `undefined`; and on the seeded array the
three reads for particle `i` are the `x`, `y` and `mass` the seeding loop
stored for it. -/
theorem snapshot_reads {α : Type} [Zero α] (N : ℕ) (hN : 1 ≤ N) (f : List α → List α)
    (hf : ∀ l : List α, l.length = N * 8 → (f l).length = N * 8)
    (seed : List α) (hseed : seed.length = N * 8) (K : ℕ) :
    (∃ s1, run N (kernelOf f) (initialState N) (script N seed (List.replicate K okFrame)) =
        some s1 ∧
      s1.drawn.length = K ∧
      (1 ≤ K → s1.drawn.getLast? = some (s1.contents .stagingBuffer)) ∧
      (∀ d ∈ s1.drawn, d.length = N * 8 ∧ (draw N d).length = N ∧
        ∀ i, i < N → ∃ x y m, d[i * 8]? = some x ∧ d[i * 8 + 1]? = some y ∧
          d[i * 8 + 4]? = some m ∧ (draw N d)[i]? = some (some x, some y, some m))) ∧
    (∀ (w h : ℕ) (random : ℕ → ℚ) (i : ℕ), i < N →
      (draw N (inputData w h random N))[i]? =
        some (some (fround (toDouble ((w : ℚ) * random (3 * i)))),
          some (fround (toDouble ((h : ℚ) * random (3 * i + 1)))),
          some (fround (toDouble (1 + random (3 * i + 2)))))) := by
  constructor
  · obtain ⟨s1, hrun, -, hall, -, hd, -, -⟩ := run_script N hN f hf seed hseed K
    refine ⟨s1, hrun, by simp [hd], ?_, ?_⟩
    · intro hK
      obtain ⟨K0, rfl⟩ : ∃ K0, K = K0 + 1 := ⟨K - 1, by omega⟩
      rw [hall hK .stagingBuffer, hd, List.range_succ, List.map_append]
      simp
    · intro d hdmem
      rw [hd, List.mem_map] at hdmem
      obtain ⟨j, -, rfl⟩ := hdmem
      have hlen := iterate_length N f hf seed hseed (j + 1)
      exact ⟨hlen, draw_defined N _ hlen⟩
  · intro w h random i hi
    obtain ⟨b0, b1, -, -, b4, -, -, -⟩ := inputData_record w h random N i hi
    simp only [Nat.add_zero] at b0
    simp [draw, drawReads, hi, b0, b1, b4]

theorem snapshot_reads_witness :
    (∃ s1, run 1 (kernelOf (fun l : List ℕ => l.set 2 9)) (initialState 1)
        (script 1 [3, 4, 7, 7, 1, 0, 0, 0] (List.replicate 2 okFrame)) = some s1 ∧
      s1.drawn.length = 2 ∧
      (1 ≤ 2 → s1.drawn.getLast? = some (s1.contents .stagingBuffer)) ∧
      (∀ d ∈ s1.drawn, d.length = 1 * 8 ∧ (draw 1 d).length = 1 ∧
        ∀ i, i < 1 → ∃ x y m, d[i * 8]? = some x ∧ d[i * 8 + 1]? = some y ∧
          d[i * 8 + 4]? = some m ∧ (draw 1 d)[i]? = some (some x, some y, some m))) ∧
    (∀ (w h : ℕ) (random : ℕ → ℚ) (i : ℕ), i < 1 →
      (draw 1 (inputData w h random 1))[i]? =
        some (some (fround (toDouble ((w : ℚ) * random (3 * i)))),
          some (fround (toDouble ((h : ℚ) * random (3 * i + 1)))),
          some (fround (toDouble (1 + random (3 * i + 2)))))) :=
  snapshot_reads 1 (by decide) (fun l => l.set 2 9) (fun l h => by simpa using h)
    [3, 4, 7, 7, 1, 0, 0, 0] rfl 2


/-! ## The calls of the script -/

theorem mem_renderLoop {α : Type} (N : ℕ) (ok : Bool) (op : Op α) (h : op ∈ renderLoop N ok) :
    op = .submit (recordedCommands N) ∨ op = .mapAsync .stagingBuffer 0 (BUFFER_SIZE N) ∨
    op = .mapSettled .stagingBuffer ok ∨ op = .getMappedRange .stagingBuffer 0 (BUFFER_SIZE N) ∨
    op = .newFloat32Array .stagingBuffer ∨ op = .unmap .stagingBuffer ∨ op = .draw ∨
    op = .requestAnimationFrame := by
  cases ok <;> simp [renderLoop] at h <;> tauto

theorem mem_frameLoop {α : Type} (N : ℕ) (envs : List FrameEnv) (op : Op α)
    (h : op ∈ frameLoop N envs) : op = .deviceLostReaction ∨ ∃ ok, op ∈ renderLoop N ok := by
  induction envs with
  | nil => simp [frameLoop] at h
  | cons e envs ih =>
    simp only [frameLoop, List.mem_append] at h
    rcases h with (h | h) | h
    · left
      split at h
      · simpa using h
      · simp at h
    · exact Or.inr ⟨_, h⟩
    · split at h
      · exact ih h
      · simp at h

/-- Every call of the script is the seed write, the device-lost reaction or one
of the calls of `renderLoop`. -/
theorem mem_script {α : Type} (N : ℕ) (seed : List α) (envs : List FrameEnv) (op : Op α)
    (h : op ∈ script N seed envs) :
    op = .writeBuffer .inputBuffer 0 seed ∨ op = .deviceLostReaction ∨
    op = .submit (recordedCommands N) ∨ op = .mapAsync .stagingBuffer 0 (BUFFER_SIZE N) ∨
    (∃ ok, op = .mapSettled .stagingBuffer ok) ∨
    op = .getMappedRange .stagingBuffer 0 (BUFFER_SIZE N) ∨
    op = .newFloat32Array .stagingBuffer ∨ op = .unmap .stagingBuffer ∨ op = .draw ∨
    op = .requestAnimationFrame := by
  simp only [script, List.mem_cons] at h
  rcases h with h | h
  · exact Or.inl h
  · rcases mem_frameLoop N envs op h with h | ⟨ok, h⟩
    · exact Or.inr (Or.inl h)
    · rcases mem_renderLoop N ok op h with h | h | h | h | h | h | h | h
      · tauto
      · tauto
      · exact Or.inr (Or.inr (Or.inr (Or.inr (Or.inl ⟨ok, h⟩))))
      · tauto
      · tauto
      · tauto
      · tauto
      · tauto

/-! ## Mapping discipline -/

theorem mapRun_append {α : Type} (b : BufferName) (m : MapState) (xs ys : List (Op α)) :
    mapRun b m (xs ++ ys) = (mapRun b m xs).bind fun m1 => mapRun b m1 ys := by
  induction xs generalizing m with
  | nil => simp [mapRun]
  | cons x xs ih =>
    simp only [List.cons_append, mapRun]
    cases mapStep b m x with
    | none => simp
    | some m1 => simpa using ih m1

theorem mapRun_renderLoop {α : Type} (N : ℕ) (ok : Bool) :
    mapRun (α := α) .stagingBuffer .unmapped (renderLoop N ok) = some .unmapped := by
  cases ok <;> simp [renderLoop, mapRun, mapStep, recordedCommands, commandBuffers]

theorem mapRun_frameLoop {α : Type} (N : ℕ) (envs : List FrameEnv) :
    mapRun (α := α) .stagingBuffer .unmapped (frameLoop N envs) = some .unmapped := by
  induction envs with
  | nil => simp [frameLoop, mapRun]
  | cons e envs ih =>
    have hlost : mapRun (α := α) .stagingBuffer .unmapped
        (if e.lostBefore then [.deviceLostReaction] else []) = some .unmapped := by
      split <;> simp [mapRun, mapStep]
    simp only [frameLoop, mapRun_append, hlost, mapRun_renderLoop, Option.some_bind]
    split
    · exact ih
    · simp [mapRun]

theorem mapRun_script {α : Type} (N : ℕ) (seed : List α) (envs : List FrameEnv) :
    mapRun .stagingBuffer .unmapped (script N seed envs) = some .unmapped := by
  simp only [script, mapRun, mapStep]
  simpa using mapRun_frameLoop N envs

/-- A call inside an accepted sequence is allowed in the state reached before it. -/
theorem mapRun_split {α : Type} (b : BufferName) (m r : MapState) (pre post : List (Op α))
    (op : Op α) (h : mapRun b m (pre ++ op :: post) = some r) :
    ∃ m1 m2, mapRun b m pre = some m1 ∧ mapStep b m1 op = some m2 := by
  rw [mapRun_append] at h
  cases hpre : mapRun b m pre with
  | none => simp [hpre] at h
  | some m1 =>
    rw [hpre] at h
    simp only [Option.some_bind, mapRun] at h
    cases hop : mapStep b m1 op with
    | none => simp [hop] at h
    | some m2 => exact ⟨m1, m2, rfl, hop⟩

/-- C2: in every execution of the frame loop the mapping state machine of the
staging buffer accepts the whole sequence of calls.  At every `mapAsync` and at
every `submit` the staging buffer is unmapped (the mapping before it was
released or was never granted); at every `getMappedRange` and at the decode
into the `Float32Array` it is mapped, with a range that covers the requested
one: the promise of that run's `mapAsync` has fulfilled and that run's
`unmap` has not happened yet. -/
theorem mapping_discipline {α : Type} (N : ℕ) (seed : List α) (envs : List FrameEnv) :
    mapRun .stagingBuffer .unmapped (script N seed envs) = some .unmapped ∧
    ∀ (pre post : List (Op α)) (op : Op α), script N seed envs = pre ++ op :: post →
      ∃ m, mapRun .stagingBuffer .unmapped pre = some m ∧
        (∀ o sz, op = .mapAsync .stagingBuffer o sz → m = .unmapped) ∧
        (∀ cmds, op = .submit cmds → m = .unmapped) ∧
        (∀ o sz, op = .getMappedRange .stagingBuffer o sz →
          ∃ o1 sz1, m = .mapped o1 sz1 ∧ o1 ≤ o ∧ o + sz ≤ o1 + sz1) ∧
        (op = .newFloat32Array .stagingBuffer → ∃ o1 sz1, m = .mapped o1 sz1) := by
  refine ⟨mapRun_script N seed envs, ?_⟩
  intro pre post op hsplit
  have hacc := mapRun_script N seed envs
  rw [hsplit] at hacc
  obtain ⟨m1, m2, hpre, hstep⟩ := mapRun_split _ _ _ pre post op hacc
  have hmem : op ∈ script N seed envs := by rw [hsplit]; simp
  refine ⟨m1, hpre, ?_, ?_, ?_, ?_⟩
  · intro o sz hop
    subst hop
    simp only [mapStep, if_true] at hstep
    by_contra hne
    simp [hne] at hstep
  · intro cmds hop
    subst hop
    have hc : cmds = recordedCommands N := by
      rcases mem_script N seed envs _ hmem with h | h | h | h | ⟨_, h⟩ | h | h | h | h | h <;>
        simp at h
      exact h
    subst hc
    simp only [mapStep, recordedCommands, commandBuffers] at hstep
    by_contra hne
    simp [hne] at hstep
  · intro o sz hop
    subst hop
    simp only [mapStep, if_true] at hstep
    cases m1 with
    | unmapped => simp at hstep
    | pending _ _ => simp at hstep
    | mapped o1 sz1 =>
      refine ⟨o1, sz1, rfl, ?_⟩
      by_contra hne
      simp only [] at hstep
      rw [if_neg hne] at hstep
      cases hstep
  · intro hop
    subst hop
    simp only [mapStep, if_true] at hstep
    cases m1 with
    | unmapped => simp at hstep
    | pending _ _ => simp at hstep
    | mapped o1 sz1 => exact ⟨o1, sz1, rfl⟩


/-! ## Device loss -/

/-- Runs whose mappings fulfil are followed by the rest of the frame loop. -/
theorem frameLoop_append {α : Type} (N : ℕ) (pre rest : List FrameEnv)
    (hpre : ∀ x ∈ pre, x.mapFulfilled = true) :
    frameLoop (α := α) N (pre ++ rest) = frameLoop N pre ++ frameLoop N rest := by
  induction pre with
  | nil => simp [frameLoop]
  | cons e pre ih =>
    have he : e.mapFulfilled = true := hpre e (by simp)
    have ih2 := ih (fun x hx => hpre x (by simp [hx]))
    rw [List.cons_append]
    simp only [frameLoop, he, if_true, List.append_assoc]
    rw [ih2]

/-- The frame loop ends with the first run whose mapping is rejected: that run
records, submits and requests the mapping, and nothing follows it. -/
theorem frameLoop_stops_at_rejection {α : Type} (N : ℕ) (pre post : List FrameEnv)
    (e : FrameEnv) (hpre : ∀ x ∈ pre, x.mapFulfilled = true) (he : e.mapFulfilled = false) :
    frameLoop (α := α) N (pre ++ e :: post) =
      frameLoop N pre ++ ((if e.lostBefore then [.deviceLostReaction] else []) ++
        [.submit (recordedCommands N), .mapAsync .stagingBuffer 0 (BUFFER_SIZE N),
          .mapSettled .stagingBuffer false]) := by
  rw [frameLoop_append N pre (e :: post) hpre]
  simp [frameLoop, renderLoop, he]

/-- C7 fails on the code: the device is reported lost after the first run of
`renderLoop` has scheduled the second.  The reaction of `device.lost` throws,
and the second run still records and submits its commands and asks for the
mapping; it stops only because that mapping is rejected.  When the mapping is
still granted, the run also draws and schedules a third run, which runs. -/
theorem device_loss_does_not_stop_loop :
    frameLoop (α := ℚ) 2 [okFrame, { lostBefore := true, mapFulfilled := false }] =
      [ .submit (recordedCommands 2), .mapAsync .stagingBuffer 0 64,
        .mapSettled .stagingBuffer true, .getMappedRange .stagingBuffer 0 64,
        .newFloat32Array .stagingBuffer, .unmap .stagingBuffer, .draw, .requestAnimationFrame,
        .deviceLostReaction,
        .submit (recordedCommands 2), .mapAsync .stagingBuffer 0 64,
        .mapSettled .stagingBuffer false ] ∧
    frameLoop (α := ℚ) 2 [okFrame, { lostBefore := true, mapFulfilled := true }, okFrame] =
      [ .submit (recordedCommands 2), .mapAsync .stagingBuffer 0 64,
        .mapSettled .stagingBuffer true, .getMappedRange .stagingBuffer 0 64,
        .newFloat32Array .stagingBuffer, .unmap .stagingBuffer, .draw, .requestAnimationFrame,
        .deviceLostReaction,
        .submit (recordedCommands 2), .mapAsync .stagingBuffer 0 64,
        .mapSettled .stagingBuffer true, .getMappedRange .stagingBuffer 0 64,
        .newFloat32Array .stagingBuffer, .unmap .stagingBuffer, .draw, .requestAnimationFrame,
        .submit (recordedCommands 2), .mapAsync .stagingBuffer 0 64,
        .mapSettled .stagingBuffer true, .getMappedRange .stagingBuffer 0 64,
        .newFloat32Array .stagingBuffer, .unmap .stagingBuffer, .draw,
        .requestAnimationFrame ] := by
  constructor <;> simp [frameLoop, renderLoop, okFrame, BUFFER_SIZE, BODY_SIZE]

/-! ## Writes -/

/-- A dispatch changes no buffer other than the output buffer, whatever the
kernel does. -/
theorem dispatch_frame {α : Type} (k : Kernel α) (g : ℤ) (c : BufferName → List α)
    (b : BufferName) (hb : b ≠ .outputBuffer) : dispatch k g c b = c b := by
  simp [dispatch, bindGroup, writableBinding, bindGroupLayout, Function.update, hb]

theorem execCommand_frame {α : Type} (k : Kernel α) (c : BufferName → List α) (cmd : Command)
    (b : BufferName) (hb : b ∉ commandWrites cmd) : execCommand k c cmd b = c b := by
  cases cmd with
  | dispatchWorkgroups g =>
    apply dispatch_frame
    intro h
    apply hb
    simp [commandWrites, bindGroup, writableBinding, bindGroupLayout, h]
  | copyBufferToBuffer src srcOff dst dstOff sz =>
    have hne : b ≠ dst := by simpa [commandWrites] using hb
    simp [execCommand, Function.update, hne]

theorem foldl_execCommand_frame {α : Type} (k : Kernel α) (cmds : List Command)
    (c : BufferName → List α) (b : BufferName)
    (hb : b ∉ (cmds.map commandWrites).flatten) :
    cmds.foldl (execCommand k) c b = c b := by
  induction cmds generalizing c with
  | nil => rfl
  | cons cmd cmds ih =>
    simp only [List.map_cons, List.flatten_cons, List.mem_append, not_or] at hb
    rw [List.foldl_cons, ih _ hb.2, execCommand_frame k c cmd b hb.1]

/-- A call changes only the buffers in its write set. -/
theorem exec_frame {α : Type} (N : ℕ) (k : Kernel α) (s s1 : State α) (op : Op α)
    (b : BufferName) (h : exec N k s op = some s1) (hb : b ∉ opWrites op) :
    s1.contents b = s.contents b := by
  unfold exec at h
  split at h
  · cases hm : mapStates s.mapState op with
    | none => simp [hm] at h
    | some m =>
      rw [hm] at h
      simp only [Option.some_bind] at h
      cases op with
      | writeBuffer buffer o d =>
        have hne : b ≠ buffer := by simpa [opWrites] using hb
        simp only [effect, Option.some.injEq] at h
        subst h
        simp [Function.update, hne]
      | submit cmds =>
        simp only [effect, Option.some.injEq] at h
        subst h
        exact foldl_execCommand_frame k cmds _ b (by simpa [opWrites] using hb)
      | newFloat32Array src =>
        simp only [effect, Option.map_eq_some'] at h
        obtain ⟨_, _, rfl⟩ := h
        rfl
      | draw =>
        simp only [effect, Option.map_eq_some'] at h
        obtain ⟨_, _, rfl⟩ := h
        rfl
      | _ =>
        simp only [effect, Option.some.injEq] at h
        subst h
        rfl
  · cases h


/-- C8: the input buffer is bound to the compute stage at binding 0 only, whose
layout type is read-only storage, and the output buffer at binding 1 only
(storage), so a dispatch changes no buffer other than the output buffer,
whatever the kernel; a call changes only the buffers in its write set; and over
the whole run the calls that write the input buffer are the one `writeBuffer`
of the seed, which comes before the frame loop and never inside it, and the
copy from the output buffer in each run, and the only write to the staging
buffer is the copy from the output buffer. -/
theorem buffer_writes {α : Type} (N : ℕ) (seed : List α) (envs : List FrameEnv) :
    (bindGroup.filter fun e => decide (e.buffer = .inputBuffer)).map (fun e => e.binding) = [0] ∧
    (bindGroup.filter fun e => decide (e.buffer = .outputBuffer)).map (fun e => e.binding) = [1] ∧
    (bindGroup.filter fun e => decide (e.buffer = .stagingBuffer)) = [] ∧
    (bindGroupLayout.filter fun l => decide (l.binding = 0)).map (fun l => (l.visibility, l.type)) =
      [([.COMPUTE], .readOnlyStorage)] ∧
    (bindGroupLayout.filter fun l => decide (l.binding = 1)).map (fun l => (l.visibility, l.type)) =
      [([.COMPUTE], .storage)] ∧
    (∀ (k : Kernel α) (g : ℤ) (c : BufferName → List α) (b : BufferName),
      b ≠ .outputBuffer → dispatch k g c b = c b) ∧
    (∀ (k : Kernel α) (s s1 : State α) (op : Op α) (b : BufferName),
      exec N k s op = some s1 → b ∉ opWrites op → s1.contents b = s.contents b) ∧
    script N seed envs = .writeBuffer .inputBuffer 0 seed :: frameLoop N envs ∧
    (∀ op ∈ frameLoop (α := α) N envs,
      (∀ b o d, op ≠ .writeBuffer b o d) ∧
      (opWrites op ≠ [] → op = .submit (recordedCommands N))) ∧
    (recordedCommands N).map commandWrites =
      [[.outputBuffer], [.stagingBuffer], [.inputBuffer]] ∧
    (∀ c ∈ recordedCommands N,
      (.inputBuffer ∈ commandWrites c →
        c = .copyBufferToBuffer .outputBuffer 0 .inputBuffer 0 (BUFFER_SIZE N)) ∧
      (.stagingBuffer ∈ commandWrites c →
        c = .copyBufferToBuffer .outputBuffer 0 .stagingBuffer 0 (BUFFER_SIZE N)) ∧
      (.outputBuffer ∈ commandWrites c → c = .dispatchWorkgroups (workgroupCount N))) := by
  refine ⟨by decide, by decide, by decide, by decide, by decide, ?_, ?_, rfl, ?_, ?_, ?_⟩
  · intro k g c b hb
    exact dispatch_frame k g c b hb
  · intro k s s1 op b h hb
    exact exec_frame N k s s1 op b h hb
  · intro op hop
    rcases mem_frameLoop N envs op hop with h | ⟨ok, h⟩
    · subst h
      exact ⟨fun _ _ _ h => (by cases h), fun h => absurd rfl h⟩
    · rcases mem_renderLoop N ok op h with h | h | h | h | h | h | h | h <;> subst h
      · exact ⟨fun _ _ _ h => (by cases h), fun _ => rfl⟩
      all_goals exact ⟨fun _ _ _ h => (by cases h), fun h => absurd rfl h⟩
  · simp [recordedCommands, commandWrites, bindGroup, writableBinding, bindGroupLayout]
  · intro c hc
    simp only [recordedCommands, List.mem_cons, List.mem_singleton, List.not_mem_nil,
      or_false] at hc
    rcases hc with hc | hc | hc <;> subst hc <;>
      simp [commandWrites, bindGroup, writableBinding, bindGroupLayout]

/-! ## Validation -/

/-- C10: for every `N ≥ 1` every call the script issues passes validation
against the usage flags and the size its buffer was created with: each
`copyBufferToBuffer` has a source created with `COPY_SRC` and a destination
created with `COPY_DST` and copies `BUFFER_SIZE` bytes at offset 0, which fits
both buffers and is a multiple of 4; the `writeBuffer` targets a buffer with
`COPY_DST` and fits it; `mapAsync` targets the only buffer created with
`MAP_READ` and its range `[0, BUFFER_SIZE)` fits that buffer; and both buffers
of the bind group were created with `STORAGE`. -/
theorem operations_permitted {α : Type} (N : ℕ) (hN : 1 ≤ N) (seed : List α)
    (hseed : seed.length = N * 8) (envs : List FrameEnv) :
    (∀ op ∈ script N seed envs, permitted N op = true) ∧
    (∀ c ∈ recordedCommands N, ∀ src srcOff dst dstOff sz,
      c = Command.copyBufferToBuffer src srcOff dst dstOff sz →
        GPUBufferUsage.COPY_SRC ∈ (bufferDescriptor N src).usage ∧
        GPUBufferUsage.COPY_DST ∈ (bufferDescriptor N dst).usage ∧
        srcOff = 0 ∧ dstOff = 0 ∧ sz = BUFFER_SIZE N ∧
        srcOff + sz ≤ (bufferDescriptor N src).size ∧
        dstOff + sz ≤ (bufferDescriptor N dst).size ∧ sz % 4 = 0) ∧
    (∀ op ∈ script N seed envs, ∀ b o d, op = Op.writeBuffer b o d →
      GPUBufferUsage.COPY_DST ∈ (bufferDescriptor N b).usage ∧
      o + BYTES_PER_ELEMENT * d.length ≤ (bufferDescriptor N b).size) ∧
    (∀ op ∈ script N seed envs, ∀ b o sz, op = Op.mapAsync b o sz →
      (∀ b1, GPUBufferUsage.MAP_READ ∈ (bufferDescriptor N b1).usage ↔ b1 = b) ∧
      o = 0 ∧ sz = BUFFER_SIZE N ∧ o + sz ≤ (bufferDescriptor N b).size) ∧
    (∀ e ∈ bindGroup, GPUBufferUsage.STORAGE ∈ (bufferDescriptor N e.buffer).usage) := by
  have h4 : BUFFER_SIZE N % 4 = 0 := by simp only [BUFFER_SIZE, BODY_SIZE]; omega
  have hfit : 4 * (N * 8) ≤ BUFFER_SIZE N := by simp only [BUFFER_SIZE, BODY_SIZE]; omega
  refine ⟨?_, ?_, ?_, ?_, ?_⟩
  · intro op hop
    rcases mem_script N seed envs op hop with h | h | h | h | ⟨ok, h⟩ | h | h | h | h | h <;>
      subst h
    · simp [permitted, bufferDescriptor, BYTES_PER_ELEMENT, hseed, hfit]
    · rfl
    · exact recordedCommands_permitted N hN
    · simp [permitted, bufferDescriptor, h4]
    · rfl
    · simp [permitted, h4]
    · rfl
    · rfl
    · rfl
    · rfl
  · intro c hc src srcOff dst dstOff sz hcopy
    simp only [recordedCommands, List.mem_cons, List.mem_singleton, List.not_mem_nil,
      or_false] at hc
    rcases hc with hc | hc | hc <;> rw [hc] at hcopy <;> cases hcopy <;>
      simp [bufferDescriptor, h4]
  · intro op hop b o d hw
    rcases mem_script N seed envs op hop with h | h | h | h | ⟨ok, h⟩ | h | h | h | h | h <;>
      rw [h] at hw <;> cases hw
    simp [bufferDescriptor, BYTES_PER_ELEMENT, hseed, hfit]
  · intro op hop b o sz hm
    rcases mem_script N seed envs op hop with h | h | h | h | ⟨ok, h⟩ | h | h | h | h | h <;>
      rw [h] at hm <;> cases hm
    refine ⟨?_, rfl, rfl, by simp [bufferDescriptor]⟩
    intro b1
    cases b1 <;> simp [bufferDescriptor]
  · intro e he
    simp only [bindGroup, List.mem_cons, List.mem_singleton, List.not_mem_nil, or_false] at he
    rcases he with he | he <;> subst he <;> simp [bufferDescriptor]

theorem operations_permitted_witness :
    (∀ op ∈ script 2 [10, 10, 0, 0, 1, 0, 0, 0, 20, 20, 0, 0, 3 / 2, 0, 0, (0 : ℚ)]
        [okFrame, okFrame], permitted 2 op = true) ∧
    (∀ c ∈ recordedCommands 2, ∀ src srcOff dst dstOff sz,
      c = Command.copyBufferToBuffer src srcOff dst dstOff sz →
        GPUBufferUsage.COPY_SRC ∈ (bufferDescriptor 2 src).usage ∧
        GPUBufferUsage.COPY_DST ∈ (bufferDescriptor 2 dst).usage ∧
        srcOff = 0 ∧ dstOff = 0 ∧ sz = BUFFER_SIZE 2 ∧
        srcOff + sz ≤ (bufferDescriptor 2 src).size ∧
        dstOff + sz ≤ (bufferDescriptor 2 dst).size ∧ sz % 4 = 0) ∧
    (∀ op ∈ script 2 [10, 10, 0, 0, 1, 0, 0, 0, 20, 20, 0, 0, 3 / 2, 0, 0, (0 : ℚ)]
        [okFrame, okFrame], ∀ b o d, op = Op.writeBuffer b o d →
      GPUBufferUsage.COPY_DST ∈ (bufferDescriptor 2 b).usage ∧
      o + BYTES_PER_ELEMENT * d.length ≤ (bufferDescriptor 2 b).size) ∧
    (∀ op ∈ script 2 [10, 10, 0, 0, 1, 0, 0, 0, 20, 20, 0, 0, 3 / 2, 0, 0, (0 : ℚ)]
        [okFrame, okFrame], ∀ b o sz, op = Op.mapAsync b o sz →
      (∀ b1, GPUBufferUsage.MAP_READ ∈ (bufferDescriptor 2 b1).usage ↔ b1 = b) ∧
      o = 0 ∧ sz = BUFFER_SIZE 2 ∧ o + sz ≤ (bufferDescriptor 2 b).size) ∧
    (∀ e ∈ bindGroup, GPUBufferUsage.STORAGE ∈ (bufferDescriptor 2 e.buffer).usage) :=
  operations_permitted 2 (by decide)
    [10, 10, 0, 0, 1, 0, 0, 0, 20, 20, 0, 0, 3 / 2, 0, 0, (0 : ℚ)] rfl [okFrame, okFrame]


end PhysicsSandbox
